import Mathlib

/-! Producer and consumer message services.

A shallow embedding of `producer.go`, `consumer.go` and `producerv2.go`.

The Go standard-library functions the three files call (`fmt.Sprintf`, `strconv.Atoi`,
`time.Time`, `encoding/json`, `net/http`) are modelled in the namespace `GoLib` from their
documented behaviour.  Text is a list of Unicode characters (request and response bodies are
taken to be valid UTF-8).  The texts of the errors that `encoding/json` reports are not
modelled: the handlers that write such a text take it from a parameter (`ErrorText`).
-/

set_option autoImplicit false
set_option maxRecDepth 100000

namespace GoLib

/-- Go `string` / `[]byte` holding UTF-8 text. -/
abbrev Str := List Char

/-! ## Decimal text -/

/-- The character of a decimal digit `d < 10`. -/
def digitChar (d : Nat) : Char := Char.ofNat (48 + d)

/-- The value of a decimal digit character. -/
def digitVal (c : Char) : Nat := c.toNat - 48

/-- Is `c` one of `'0'..'9'`. -/
def isDigit (c : Char) : Bool := decide (48 ≤ c.toNat) && decide (c.toNat ≤ 57)

/-- Decimal digits of `n`, most significant first; `fuel` bounds the number of digits. -/
def decDigits : Nat → Nat → Str
  | 0, _ => []
  | fuel + 1, n =>
    if n < 10 then [digitChar n] else decDigits fuel (n / 10) ++ [digitChar (n % 10)]

/-- Decimal text of a natural number (`strconv.Itoa` on a non-negative value). -/
def formatNat (n : Nat) : Str := decDigits (n + 1) n

/-- The text `fmt.Sprintf("%d", v)` gives for an integer. -/
def formatInt (v : Int) : Str :=
  if v < 0 then '-' :: formatNat v.natAbs else formatNat v.natAbs

/-- Value of a run of decimal digits, most significant first. -/
def digitsVal (s : Str) : Nat := s.foldl (fun acc c => acc * 10 + digitVal c) 0

/-- Reading back the text of `formatInt`. -/
def readInt (s : Str) : Int :=
  match s with
  | [] => 0
  | c :: ds => if c = '-' then -(digitsVal ds : Int) else (digitsVal (c :: ds) : Int)

/-- Two's-complement wrap of an integer into the `int64` range. -/
def wrapInt64 (x : Int) : Int := (x + 2 ^ 63) % 2 ^ 64 - 2 ^ 63

/-- The largest `int64`. -/
def maxInt64 : Int := 2 ^ 63 - 1

/-- The smallest `int64`. -/
def minInt64 : Int := -(2 ^ 63)

/-- What `strconv.Atoi` returns on a 64-bit platform: an optional sign, then one or more decimal
digits and nothing else; a value outside the `int64` range is an error (`none`). -/
def Atoi (s : Str) : Option Int :=
  let body (neg : Bool) (ds : Str) : Option Int :=
    if ds.isEmpty || !ds.all isDigit then none
    else
      let v : Int := if neg then -(digitsVal ds : Int) else (digitsVal ds : Int)
      if v < minInt64 || maxInt64 < v then none else some v
  match s with
  | '+' :: ds => body false ds
  | '-' :: ds => body true ds
  | ds => body false ds

/-! ## `time.Time` -/

/-- A `time.Time`, held as the civil date and clock time it shows in its own zone together with
that zone's offset from UTC in minutes.  The monotonic clock reading and the zone name, neither of
which the programs observe, are left out; years before 0 are not represented. -/
structure Time where
  year : Nat
  month : Nat
  day : Nat
  hour : Nat
  minute : Nat
  second : Nat
  nsec : Nat
  offset : Int
deriving DecidableEq, Repr

/-- The zero `time.Time`: January 1, year 1, 00:00:00 UTC. -/
def Time.zero : Time := ⟨1, 1, 1, 0, 0, 0, 0, 0⟩

/-- Gregorian leap year. -/
def isLeap (y : Nat) : Bool := y % 4 == 0 && (y % 100 != 0 || y % 400 == 0)

/-- Number of days of month `m` in year `y` (`time.daysIn`). -/
def daysIn (m y : Nat) : Nat :=
  if m == 2 then (if isLeap y then 29 else 28)
  else if m == 4 || m == 6 || m == 9 || m == 11 then 30 else 31

/-- The fields denote a real date and time of day in the years 0 to 9999, with a zone offset of
less than a day: the times that RFC 3339 text can express, and that `Time.MarshalJSON` writes.  A
reading of a system clock set to a year before 10000 is of this kind. -/
def Time.Valid (t : Time) : Prop :=
  t.year ≤ 9999 ∧ 1 ≤ t.month ∧ t.month ≤ 12 ∧ 1 ≤ t.day ∧ t.day ≤ daysIn t.month t.year ∧
  t.hour < 24 ∧ t.minute < 60 ∧ t.second < 60 ∧ t.nsec < 1000000000 ∧
  -1440 < t.offset ∧ t.offset < 1440

instance (t : Time) : Decidable t.Valid := by unfold Time.Valid; infer_instance

/-- The times that parsing RFC 3339 text can give: a real date and time of day in the years 0 to
9999, with a zone offset of up to 24 hours and 60 minutes (which the parser lets through). -/
def Time.Parsed (t : Time) : Prop :=
  t.year ≤ 9999 ∧ 1 ≤ t.month ∧ t.month ≤ 12 ∧ 1 ≤ t.day ∧ t.day ≤ daysIn t.month t.year ∧
  t.hour < 24 ∧ t.minute < 60 ∧ t.second < 60 ∧ t.nsec < 1000000000 ∧
  -1500 ≤ t.offset ∧ t.offset ≤ 1500

instance (t : Time) : Decidable t.Parsed := by unfold Time.Parsed; infer_instance

/-- Days from 1970-01-01 to the given civil date (proleptic Gregorian calendar). -/
def daysFromCivil (y m d : Nat) : Int :=
  let y1 : Int := if m ≤ 2 then (y : Int) - 1 else y
  let era : Int := y1 / 400
  let yoe : Int := y1 - era * 400
  let mp : Int := if m ≤ 2 then (m : Int) + 9 else (m : Int) - 3
  let doy : Int := (153 * mp + 2) / 5 + (d : Int) - 1
  let doe : Int := yoe * 365 + yoe / 4 - yoe / 100 + doy
  era * 146097 + doe - 719468

/-- Seconds since the Unix epoch (`Time.Unix`). -/
def Time.Unix (t : Time) : Int :=
  daysFromCivil t.year t.month t.day * 86400 + t.hour * 3600 + t.minute * 60 + t.second
    - t.offset * 60

/-- Nanoseconds since the Unix epoch as an `int64` (`Time.UnixNano`); the product wraps when
the instant is outside the years 1678..2262. -/
def Time.UnixNano (t : Time) : Int := wrapInt64 (t.Unix * 1000000000 + t.nsec)

/-! ## RFC 3339 text of a time -/

/-- Two decimal digits, zero padded. -/
def fmt2 (n : Nat) : Str := [digitChar (n / 10 % 10), digitChar (n % 10)]

/-- Four decimal digits, zero padded. -/
def fmt4 (n : Nat) : Str :=
  [digitChar (n / 1000 % 10), digitChar (n / 100 % 10), digitChar (n / 10 % 10), digitChar (n % 10)]

/-- Nine decimal digits, zero padded. -/
def fmt9 (n : Nat) : Str :=
  [digitChar (n / 100000000 % 10), digitChar (n / 10000000 % 10), digitChar (n / 1000000 % 10),
   digitChar (n / 100000 % 10), digitChar (n / 10000 % 10), digitChar (n / 1000 % 10),
   digitChar (n / 100 % 10), digitChar (n / 10 % 10), digitChar (n % 10)]

/-- Drop the zeros at the end of a digit run. -/
def dropTrailingZeros (s : Str) : Str := (s.reverse.dropWhile (fun c => c == '0')).reverse

/-- The layout element `.999999999`: nothing for a whole second, else a period and the
nanoseconds without trailing zeros. -/
def fmtFrac (nsec : Nat) : Str :=
  if nsec = 0 then [] else '.' :: dropTrailingZeros (fmt9 nsec)

/-- The layout element `Z07:00`: `Z` for UTC, else the signed offset as hours and minutes. -/
def fmtZone (offset : Int) : Str :=
  if offset = 0 then ['Z']
  else (if offset < 0 then '-' else '+') ::
    (fmt2 (offset.natAbs / 60) ++ ':' :: fmt2 (offset.natAbs % 60))

/-- Date and time of day, `2006-01-02T15:04:05`. -/
def fmtDateTime (t : Time) : Str :=
  fmt4 t.year ++ '-' :: (fmt2 t.month ++ '-' :: (fmt2 t.day ++ 'T' ::
    (fmt2 t.hour ++ ':' :: (fmt2 t.minute ++ ':' :: fmt2 t.second))))

/-- What `t.Format(time.RFC3339)` gives (whole seconds). -/
def formatRFC3339 (t : Time) : Str := fmtDateTime t ++ fmtZone t.offset

/-- What `t.Format(time.RFC3339Nano)` gives. -/
def formatRFC3339Nano (t : Time) : Str := fmtDateTime t ++ (fmtFrac t.nsec ++ fmtZone t.offset)

/-- The method `Time.MarshalJSON`: the quoted RFC 3339 text with nanoseconds; it fails (`none`)
when the year does not fit four digits or the hour of the zone offset is 24 or more. -/
def Time.MarshalJSON (t : Time) : Option Str :=
  if 10000 ≤ t.year then none
  else if 24 ≤ t.offset.natAbs / 60 then none
  else some ('"' :: (formatRFC3339Nano t ++ ['"']))

/-- The helper `getnum` of `time.Parse`: the number that one or two leading digits denote (with
`fixed`, exactly two digits are asked for) and the text after them. -/
def getnum (s : Str) (fixed : Bool) : Option (Nat × Str) :=
  match s with
  | [] => none
  | a :: rest =>
    if isDigit a then
      match rest with
      | [] => if fixed then none else some (digitVal a, rest)
      | b :: rest2 =>
        if isDigit b then some (digitVal a * 10 + digitVal b, rest2)
        else if fixed then none else some (digitVal a, rest)
    else none

/-- The layout element `2006` of `time.Parse`: exactly four digits. -/
def getyear (s : Str) : Option (Nat × Str) :=
  match s with
  | y1 :: y2 :: y3 :: y4 :: rest =>
    if isDigit y1 ∧ isDigit y2 ∧ isDigit y3 ∧ isDigit y4 then
      some (digitsVal [y1, y2, y3, y4], rest)
    else none
  | _ => none

/-- The helper `skip` of `time.Parse` for a one-character separator of the layout. -/
def skip (s : Str) (c : Char) : Option Str :=
  match s with
  | x :: rest => if x = c then some rest else none
  | [] => none

/-- The nanoseconds of a fractional-second digit run: the first nine digits, scaled
(`time.parseNanoseconds`). -/
def parseNanoseconds (ds : Str) : Nat :=
  digitsVal (ds.take 9) * 10 ^ (9 - (ds.take 9).length)

/-- The layout element `Z07:00` of `time.Parse`, which has to use up the text: `Z`, or a sign, a
two-digit hour, a colon and a two-digit minute.  The hour may be up to 24 and the minute up to
60. -/
def parseZone (s : Str) : Option Int :=
  match s with
  | ['Z'] => some 0
  | [sg, h1, h2, c, m1, m2] =>
    match getnum [h1, h2] true, getnum [m1, m2] true with
    | some (hr, _), some (mm, _) =>
      if (sg = '-' ∨ sg = '+') ∧ c = ':' ∧ hr ≤ 24 ∧ mm ≤ 60 then
        some (if sg = '-' then -((hr * 60 + mm : Nat) : Int) else ((hr * 60 + mm : Nat) : Int))
      else none
    | _, _ => none
  | _ => none

/-- The fractional second that may follow the seconds: a period or a comma and one or more digits
give nanoseconds, anything else is left for the zone. -/
def parseFrac (rest : Str) : Nat × Str :=
  match rest with
  | c :: d :: more =>
    if (c = '.' ∨ c = ',') ∧ isDigit d = true then
      (parseNanoseconds (d :: more.takeWhile isDigit), more.dropWhile isDigit)
    else (0, rest)
  | _ => (0, rest)

/-- What `time.Parse(time.RFC3339, s)` accepts and gives.  This is the parse behind
`Time.UnmarshalJSON`: text that its fast path for strict RFC 3339 rejects is handed to
`time.Parse`, whose result is taken as it is, and text the fast path accepts is parsed alike here.
The year has four digits, month, day, minute and second two, the hour one or two; the date and
the time of day must exist, a fraction and a zone follow. -/
def parseRFC3339 (s : Str) : Option Time :=
  (getyear s).bind fun (year, s) =>
  (skip s '-').bind fun s =>
  (getnum s true).bind fun (month, s) =>
  (skip s '-').bind fun s =>
  (getnum s true).bind fun (day, s) =>
  (skip s 'T').bind fun s =>
  (getnum s false).bind fun (hour, s) =>
  (skip s ':').bind fun s =>
  (getnum s true).bind fun (minute, s) =>
  (skip s ':').bind fun s =>
  (getnum s true).bind fun (sec, s) =>
  (parseZone (parseFrac s).2).bind fun offset =>
  if 1 ≤ month ∧ month ≤ 12 ∧ hour < 24 ∧ minute < 60 ∧ sec < 60 ∧
      1 ≤ day ∧ day ≤ daysIn month year then
    some ⟨year, month, day, hour, minute, sec, (parseFrac s).1, offset⟩
  else none

/-- The method `Time.UnmarshalJSON` on the raw text of a JSON string value (the text between the
quotes is parsed as it stands, without unescaping); `none` when it reports an error. -/
def Time.UnmarshalJSON (raw : Str) : Option Time := parseRFC3339 raw

/-! ## `encoding/json`: writing strings -/

/-- Lower-case hexadecimal digit. -/
def hexDigit (d : Nat) : Char := if d < 10 then Char.ofNat (48 + d) else Char.ofNat (87 + d)

/-- How the encoder writes one character of a string (HTML escaping on, as it is by default):
quote and backslash get a backslash, the usual control characters their short form, other control
characters and `<`, `>`, `&` a `\u00XX` escape, U+2028 and U+2029 a `\u` escape, the rest
themselves. -/
def escapeChar (c : Char) : Str :=
  if c = '"' then ['\\', '"']
  else if c = '\\' then ['\\', '\\']
  else if c = '\x08' then ['\\', 'b']
  else if c = '\x0c' then ['\\', 'f']
  else if c = '\n' then ['\\', 'n']
  else if c = '\r' then ['\\', 'r']
  else if c = '\t' then ['\\', 't']
  else if c.toNat < 32 ∨ c = '<' ∨ c = '>' ∨ c = '&' then
    ['\\', 'u', '0', '0', hexDigit (c.toNat / 16), hexDigit (c.toNat % 16)]
  else if c.toNat = 8232 then ['\\', 'u', '2', '0', '2', '8']
  else if c.toNat = 8233 then ['\\', 'u', '2', '0', '2', '9']
  else [c]

/-- The escaped text of a string, without the surrounding quotes. -/
def escape : Str → Str
  | [] => []
  | c :: cs => escapeChar c ++ escape cs

/-- A Go string as a JSON string literal. -/
def quote (s : Str) : Str := '"' :: (escape s ++ ['"'])

/-! ## `encoding/json`: reading -/

/-- A JSON value as the scanner delimits it.  Strings, object keys and numbers keep their source
text (for strings: the text between the quotes, escapes not yet resolved). -/
inductive Json where
  | null
  | bool (b : Bool)
  | num (raw : Str)
  | str (raw : Str)
  | arr (xs : List Json)
  | obj (kvs : List (Str × Json))

/-- JSON white space. -/
def isSpace (c : Char) : Bool := c = ' ' || c = '\t' || c = '\r' || c = '\n'

/-- Skip leading white space. -/
def skipWS (s : Str) : Str := s.dropWhile isSpace

/-- Hexadecimal digit of either case. -/
def isHex (c : Char) : Bool :=
  isDigit c || (decide (97 ≤ c.toNat) && decide (c.toNat ≤ 102)) ||
    (decide (65 ≤ c.toNat) && decide (c.toNat ≤ 70))

/-- Value of a hexadecimal digit. -/
def hexVal (c : Char) : Nat :=
  if isDigit c then c.toNat - 48 else if 97 ≤ c.toNat then c.toNat - 87 else c.toNat - 55

/-- The characters that may follow a backslash, `u` apart. -/
def isSimpleEscape (e : Char) : Bool :=
  e = '"' || e = '\\' || e = '/' || e = 'b' || e = 'f' || e = 'n' || e = 'r' || e = 't'

/-- Scan a string literal whose opening quote has been read: the text up to the closing quote and
what follows it.  A control character, a bad escape or a missing closing quote is a syntax
error. -/
def scanString : Str → Option (Str × Str)
  | [] => none
  | c :: rest =>
    if c = '"' then some ([], rest)
    else if c = '\\' then
      match rest with
      | [] => none
      | e :: rest2 =>
        if e = 'u' then
          match rest2 with
          | a :: b :: c2 :: d :: rest3 =>
            if isHex a && isHex b && isHex c2 && isHex d then
              (scanString rest3).map (fun p => ('\\' :: 'u' :: a :: b :: c2 :: d :: p.1, p.2))
            else none
          | _ => none
        else if isSimpleEscape e then
          (scanString rest2).map (fun p => ('\\' :: e :: p.1, p.2))
        else none
    else if c.toNat < 32 then none
    else (scanString rest).map (fun p => (c :: p.1, p.2))

/-- Characters a string literal holds as they are. -/
def plainChar (c : Char) : Prop := c ≠ '"' ∧ c ≠ '\\' ∧ ¬ c.toNat < 32

/-- The number `\uXXXX` denotes. -/
def getu4 (a b c d : Char) : Nat := ((hexVal a * 16 + hexVal b) * 16 + hexVal c) * 16 + hexVal d

/-- The character a simple escape denotes. -/
def simpleEscape (e : Char) : Char :=
  if e = 'b' then '\x08' else if e = 'f' then '\x0c' else if e = 'n' then '\n'
  else if e = 'r' then '\r' else if e = 't' then '\t' else e

/-- What a pending unpaired surrogate escape leaves behind: U+FFFD. -/
def flushSurrogate (pend : Option Nat) : Str :=
  match pend with
  | some _ => [Char.ofNat 65533]
  | none => []

/-- Resolve the escapes of a scanned string literal, `pend` holding a surrogate `\u` escape just
read that still waits for its partner. -/
def unquoteAux : Option Nat → Str → Str
  | pend, [] => flushSurrogate pend
  | pend, c :: rest =>
    if c = '\\' then
      match rest with
      | [] => flushSurrogate pend
      | e :: rest2 =>
        if e = 'u' then
          match rest2 with
          | a :: b :: c2 :: d :: rest3 =>
            match pend with
            | some hi =>
              if hi < 56320 ∧ 56320 ≤ getu4 a b c2 d ∧ getu4 a b c2 d < 57344 then
                Char.ofNat ((hi - 55296) * 1024 + (getu4 a b c2 d - 56320) + 65536)
                  :: unquoteAux none rest3
              else if 55296 ≤ getu4 a b c2 d ∧ getu4 a b c2 d < 57344 then
                Char.ofNat 65533 :: unquoteAux (some (getu4 a b c2 d)) rest3
              else Char.ofNat 65533 :: Char.ofNat (getu4 a b c2 d) :: unquoteAux none rest3
            | none =>
              if 55296 ≤ getu4 a b c2 d ∧ getu4 a b c2 d < 57344 then
                unquoteAux (some (getu4 a b c2 d)) rest3
              else Char.ofNat (getu4 a b c2 d) :: unquoteAux none rest3
          | _ => flushSurrogate pend
        else flushSurrogate pend ++ simpleEscape e :: unquoteAux none rest2
    else flushSurrogate pend ++ c :: unquoteAux none rest

/-- Resolve the escapes of a scanned string literal (`json.unquote`).  A `\u` escape in the
surrogate range is combined with a following low surrogate escape when the two form a pair and
is replaced by U+FFFD otherwise. -/
def unquote (raw : Str) : Str := unquoteAux none raw

/-- One or more digits: the run and what follows it. -/
def scanDigits (s : Str) : Option (Str × Str) :=
  match s with
  | d :: _ => if isDigit d then some (s.takeWhile isDigit, s.dropWhile isDigit) else none
  | [] => none

/-- The integer part of a number: `0`, or a digit run that does not start with `0`. -/
def scanInt (s : Str) : Option (Str × Str) :=
  match s with
  | d :: t => if d = '0' then some (['0'], t) else scanDigits (d :: t)
  | [] => none

/-- The optional fraction of a number: a period and one or more digits. -/
def scanFrac (s : Str) : Option (Str × Str) :=
  match s with
  | c :: t => if c = '.' then (scanDigits t).map (fun p => ('.' :: p.1, p.2)) else some ([], s)
  | [] => some ([], s)

/-- The optional exponent of a number: `e` or `E`, an optional sign, one or more digits. -/
def scanExp (s : Str) : Option (Str × Str) :=
  match s with
  | c :: t =>
    if c = 'e' ∨ c = 'E' then
      match t with
      | sg :: t2 =>
        if sg = '+' ∨ sg = '-' then (scanDigits t2).map (fun p => (c :: sg :: p.1, p.2))
        else (scanDigits t).map (fun p => (c :: p.1, p.2))
      | [] => none
    else some ([], s)
  | [] => some ([], s)

/-- The optional minus sign of a number: the sign read and what follows it. -/
def scanSign (s : Str) : Str × Str :=
  match s with
  | c :: t => if c = '-' then (['-'], t) else ([], s)
  | [] => ([], s)

/-- Scan a number: an optional minus sign, the integer part, an optional fraction, an optional
exponent. -/
def scanNumber (s : Str) : Option (Str × Str) :=
  match scanInt (scanSign s).2 with
  | none => none
  | some (ip, s2) =>
    match scanFrac s2 with
    | none => none
    | some (fp, s3) =>
      match scanExp s3 with
      | none => none
      | some (ep, s4) => some ((scanSign s).1 ++ ip ++ fp ++ ep, s4)

/-- Read the literal `lit` from the front of the input. -/
def scanLiteral (lit : Str) (v : Json) (s : Str) : Option (Json × Str) :=
  if lit.isPrefixOf s then some (v, s.drop lit.length) else none

/-- The scanner's limit on nesting (`maxNestingDepth`): an array or object that would be the
10001st level is a syntax error, `exceeded max depth`. -/
def maxNestingDepth : Nat := 10000

mutual
/-- Scan one JSON value from the front of the input, white space before it skipped: the value and
the text after it (which the stream decoder leaves unread).  `fuel` bounds the recursion and
`depth` is the number of levels of arrays and objects that may still be opened. -/
def parseValue : Nat → Nat → Str → Option (Json × Str)
  | 0, _, _ => none
  | fuel + 1, depth, s =>
    match skipWS s with
    | [] => none
    | c :: t =>
      if c = '"' then (scanString t).map (fun p => (Json.str p.1, p.2))
      else if c = '{' then
        if depth = 0 then none
        else
          match skipWS t with
          | c2 :: t2 => if c2 = '}' then some (Json.obj [], t2) else
              (parseMembers fuel (depth - 1) t).map (fun p => (Json.obj p.1, p.2))
          | [] => none
      else if c = '[' then
        if depth = 0 then none
        else
          match skipWS t with
          | c2 :: t2 => if c2 = ']' then some (Json.arr [], t2) else
              (parseElems fuel (depth - 1) t).map (fun p => (Json.arr p.1, p.2))
          | [] => none
      else if c = 't' then scanLiteral ['t', 'r', 'u', 'e'] (Json.bool true) (c :: t)
      else if c = 'f' then scanLiteral ['f', 'a', 'l', 's', 'e'] (Json.bool false) (c :: t)
      else if c = 'n' then scanLiteral ['n', 'u', 'l', 'l'] Json.null (c :: t)
      else (scanNumber (c :: t)).map (fun p => (Json.num p.1, p.2))
/-- The elements of an array after its opening bracket, up to and including the closing one. -/
def parseElems : Nat → Nat → Str → Option (List Json × Str)
  | 0, _, _ => none
  | fuel + 1, depth, s =>
    match parseValue fuel depth s with
    | none => none
    | some (v, r) =>
      match skipWS r with
      | c :: r2 =>
        if c = ',' then (parseElems fuel depth r2).map (fun p => (v :: p.1, p.2))
        else if c = ']' then some ([v], r2)
        else none
      | [] => none
/-- The members of an object after its opening brace, up to and including the closing one. -/
def parseMembers : Nat → Nat → Str → Option (List (Str × Json) × Str)
  | 0, _, _ => none
  | fuel + 1, depth, s =>
    match skipWS s with
    | c :: t =>
      if c = '"' then
        match scanString t with
        | none => none
        | some (k, r) =>
          match skipWS r with
          | c2 :: r2 =>
            if c2 = ':' then
              match parseValue fuel depth r2 with
              | none => none
              | some (v, r3) =>
                match skipWS r3 with
                | c3 :: r4 =>
                  if c3 = ',' then
                    (parseMembers fuel depth r4).map (fun p => ((k, v) :: p.1, p.2))
                  else if c3 = '}' then some ([(k, v)], r4)
                  else none
                | [] => none
            else none
          | [] => none
      else none
    | [] => none
end

/-- The first JSON value of a body, as `json.NewDecoder(body).Decode` scans it; `none` for a
syntax error, nesting beyond the limit or a body that ends early.  Two units of fuel for every
character are always enough, so `none` never means that the fuel ran out. -/
def scanValue (body : Str) : Option Json :=
  (parseValue (2 * body.length + 2) maxNestingDepth body).map (·.1)

/-- With fuel `f`, a value that is scanned is scanned alike with any fuel from twice the
characters read on. -/
def ValueFuel (f : Nat) : Prop :=
  ∀ d s v rest, parseValue f d s = some (v, rest) →
    rest.length ≤ s.length ∧
    ∀ g, 2 * (s.length - rest.length) + 1 ≤ g → parseValue g d s = some (v, rest)

/-- The same for the elements of an array. -/
def ElemsFuel (f : Nat) : Prop :=
  ∀ d s vs rest, parseElems f d s = some (vs, rest) →
    rest.length ≤ s.length ∧
    ∀ g, 2 * (s.length - rest.length) + 1 ≤ g → parseElems g d s = some (vs, rest)

/-- The same for the members of an object. -/
def MembersFuel (f : Nat) : Prop :=
  ∀ d s kvs rest, parseMembers f d s = some (kvs, rest) →
    rest.length ≤ s.length ∧
    ∀ g, 2 * (s.length - rest.length) + 1 ≤ g → parseMembers g d s = some (kvs, rest)

/-! ## The `Message` record and its JSON form -/

/-- The struct `Message`; the three programs declare it identically, with the JSON names
`id`, `content` and `timestamp`. -/
structure Message where
  ID : Str
  Content : Str
  Timestamp : Time
deriving DecidableEq, Repr

/-- The zero value of `Message`. -/
def Message.zero : Message := ⟨[], [], Time.zero⟩

/-- A Go slice of messages; `none` is the nil slice, which differs from an empty one. -/
abbrev Slice := Option (List Message)

/-- The elements of a slice. -/
def Slice.toList : Slice → List Message
  | none => []
  | some l => l

/-- The builtin `append(s, m)`. -/
def Slice.append (s : Slice) (m : Message) : Slice := some (Slice.toList s ++ [m])

/-- Case folding of object keys when they are matched against field names: letters to upper
case, and the two non-ASCII characters whose simple fold is an ASCII letter (U+017F, U+212A). -/
def foldChar (c : Char) : Char :=
  if 97 ≤ c.toNat ∧ c.toNat ≤ 122 then Char.ofNat (c.toNat - 32)
  else if c.toNat = 383 then 'S'
  else if c.toNat = 8490 then 'K'
  else c

/-- Store a JSON value into a `string` field: `null` leaves it, a string sets it, anything else
is a type error (`none`). -/
def unmarshalString (cur : Str) (v : Json) : Option Str :=
  match v with
  | .null => some cur
  | .str raw => some (unquote raw)
  | _ => none

/-- Store a JSON value into a `time.Time` field: `null` leaves it, a string is parsed as RFC 3339,
anything else is an error (`none`). -/
def unmarshalTime (cur : Time) (v : Json) : Option Time :=
  match v with
  | .null => some cur
  | .str raw => Time.UnmarshalJSON raw
  | _ => none

/-- Store one object member into the field its key names, keys compared without regard to case;
members that name no field are skipped. -/
def Message.setField (m : Message) (key : Str) (v : Json) : Option Message :=
  if key.map foldChar = ['I', 'D'] then
    (unmarshalString m.ID v).map (fun x => { m with ID := x })
  else if key.map foldChar = ['C', 'O', 'N', 'T', 'E', 'N', 'T'] then
    (unmarshalString m.Content v).map (fun x => { m with Content := x })
  else if key.map foldChar = ['T', 'I', 'M', 'E', 'S', 'T', 'A', 'M', 'P'] then
    (unmarshalTime m.Timestamp v).map (fun x => { m with Timestamp := x })
  else some m

/-- Store the members of an object, in order (a later duplicate overrides an earlier one). -/
def Message.setFields (m : Message) : List (Str × Json) → Option Message
  | [] => some m
  | (k, v) :: kvs =>
    match Message.setField m (unquote k) v with
    | none => none
    | some m2 => Message.setFields m2 kvs

/-- Store a JSON value into a `Message`: `null` leaves it, an object sets fields, anything else is a
type error (`none`). -/
def unmarshalMessage (m : Message) (v : Json) : Option Message :=
  match v with
  | .null => some m
  | .obj kvs => Message.setFields m kvs
  | _ => none

/-- Store the elements of an array into fresh messages. -/
def unmarshalElems : List Json → Option (List Message)
  | [] => some []
  | v :: vs =>
    match unmarshalMessage Message.zero v with
    | none => none
    | some m =>
      match unmarshalElems vs with
      | none => none
      | some ms => some (m :: ms)

/-- Store a JSON value into a `[]Message`: `null` leaves it, an array replaces it (an empty array
by an empty, non-nil slice), anything else is a type error (`none`). -/
def unmarshalSlice (cur : Slice) (v : Json) : Option Slice :=
  match v with
  | .null => some cur
  | .arr xs => (unmarshalElems xs).map some
  | _ => none

/-- The call `json.NewDecoder(body).Decode(&message)` on a zero `message`: the message, or `none`
when `Decode` returns an error. -/
def decodeMessage (body : Str) : Option Message :=
  match scanValue body with
  | none => none
  | some v => unmarshalMessage Message.zero v

/-- The call `json.NewDecoder(body).Decode(&messages)` on a nil `messages`: the slice, or `none`
when `Decode` returns an error. -/
def decodeSlice (body : Str) : Option Slice :=
  match scanValue body with
  | none => none
  | some v => unmarshalSlice none v

/-- The call `json.Marshal(message)`: the three fields in declaration order; `none` when the
timestamp cannot be written. -/
def marshalMessage (m : Message) : Option Str :=
  match m.Timestamp.MarshalJSON with
  | none => none
  | some ts =>
    some (['{'] ++ quote ['i', 'd'] ++ [':'] ++ quote m.ID ++ [','] ++
      quote ['c', 'o', 'n', 't', 'e', 'n', 't'] ++ [':'] ++ quote m.Content ++ [','] ++
      quote ['t', 'i', 'm', 'e', 's', 't', 'a', 'm', 'p'] ++ [':'] ++ ts ++ ['}'])

/-- The elements of an array, separated by commas. -/
def marshalElems : List Message → Option Str
  | [] => some []
  | [m] => marshalMessage m
  | m :: ms =>
    match marshalMessage m, marshalElems ms with
    | some a, some b => some (a ++ ',' :: b)
    | _, _ => none

/-- The call `json.Marshal(messages)`: `null` for the nil slice, else a JSON array. -/
def marshalSlice (s : Slice) : Option Str :=
  match s with
  | none => some ['n', 'u', 'l', 'l']
  | some l => (marshalElems l).map (fun b => '[' :: (b ++ [']']))

/-- The JSON text of a message whose timestamp can be written. -/
def messageText (m : Message) : Str :=
  ['{'] ++ quote ['i', 'd'] ++ [':'] ++ quote m.ID ++ [','] ++
    quote ['c', 'o', 'n', 't', 'e', 'n', 't'] ++ [':'] ++ quote m.Content ++ [','] ++
    quote ['t', 'i', 'm', 'e', 's', 't', 'a', 'm', 'p'] ++ [':'] ++
    ('"' :: (formatRFC3339Nano m.Timestamp ++ ['"'])) ++ ['}']

/-- The value the scanner delimits in `messageText m`. -/
def messageJson (m : Message) : Json :=
  Json.obj [(escape ['i', 'd'], Json.str (escape m.ID)),
    (escape ['c', 'o', 'n', 't', 'e', 'n', 't'], Json.str (escape m.Content)),
    (escape ['t', 'i', 'm', 'e', 's', 't', 'a', 'm', 'p'],
      Json.str (formatRFC3339Nano m.Timestamp))]

/-- The JSON text of the elements of a slice whose timestamps can be written. -/
def elemsText : List Message → Str
  | [] => []
  | [m] => messageText m
  | m :: ms => messageText m ++ ',' :: elemsText ms

/-- What `json.NewEncoder(w).Encode(v)` writes: the marshalled value and a newline, or nothing when
marshalling fails. -/
def encodeBody (marshalled : Option Str) : Str :=
  match marshalled with
  | some b => b ++ ['\n']
  | none => []

/-- The texts `err.Error()` of the errors that `encoding/json` returns, which are not modelled: for
a body that `Decode(&message)` rejects, for a body that `Decode(&messages)` rejects, and for a
message that `json.Marshal` cannot write. -/
structure ErrorText where
  decodeMessage : Str → Str
  decodeSlice : Str → Str
  marshalMessage : Message → Str

/-! ## `net/http` -/

/-- The part of an inbound request the handlers read. -/
structure Request where
  Method : Str
  Body : Str
deriving DecidableEq, Repr

/-- What a handler leaves in the response writer; also what an outbound call gets back. -/
structure Response where
  StatusCode : Nat
  ContentType : Str
  Body : Str
deriving DecidableEq, Repr

/-- The call `http.Error(w, msg, code)`: a plain-text response with the message and a newline. -/
def httpError (msg : Str) (code : Nat) : Response :=
  ⟨code, "text/plain; charset=utf-8".toList, msg ++ ['\n']⟩

/-- An outbound call made through `http.Get` or `http.Post`. -/
structure Outbound where
  Method : Str
  URL : Str
  Body : Str
deriving DecidableEq, Repr

/-- The network as an outbound call sees it: the error text when no response arrives, or the
response. -/
abbrev Net := Outbound → Except Str Response

end GoLib

open GoLib

/-! # producer.go -/

namespace Producer

/-- The handler `handleMessages`.  `messages` is the package-level slice, `t1` and `t2` are the
readings of the two `time.Now()` calls of the POST branch; the result is the slice afterwards and
the response.  (The log line is not modelled.) -/
def handleMessages (txt : ErrorText) (messages : Slice) (r : Request) (t1 t2 : Time) :
    Slice × Response :=
  if r.Method = "GET".toList then
    (messages, ⟨200, "application/json".toList, encodeBody (marshalSlice messages)⟩)
  else if r.Method = "POST".toList then
    match decodeMessage r.Body with
    | none => (messages, httpError (txt.decodeMessage r.Body) 400)
    | some message =>
      let message1 : Message := { message with ID := formatInt t1.UnixNano }
      let message2 : Message := { message1 with Timestamp := t2 }
      (Slice.append messages message2,
        ⟨201, "application/json".toList, encodeBody (marshalMessage message2)⟩)
  else (messages, ⟨405, "application/json".toList, []⟩)

/-- One request to `/messages` together with the clock readings it meets. -/
structure Event where
  req : Request
  t1 : Time
  t2 : Time

/-- The slice after a sequence of requests, handled one after the other. -/
def run (txt : ErrorText) (messages : Slice) : List Event → Slice
  | [] => messages
  | e :: es => run txt (handleMessages txt messages e.req e.t1 e.t2).1 es

/-- The slice when the process starts: `var messages []Message`, the nil slice. -/
def initial : Slice := none

/-- The request is a POST whose body decodes: the one kind of request that stores a message. -/
def creates (e : Event) : Bool :=
  decide (e.req.Method = "POST".toList) && (decodeMessage e.req.Body).isSome

/-- The identifiers of the stored messages, in order. -/
def ids (messages : Slice) : List Str := (Slice.toList messages).map (fun m => m.ID)

end Producer

/-! # consumer.go (and the same functions of producerv2.go) -/

namespace Consumer

/-- The URL `fmt.Sprintf("http://%s/messages", producerHost)`. -/
def messagesURL (producerHost : Str) : Str := "http://".toList ++ producerHost ++ "/messages".toList

/-- The function `fetchMessages`: the decoded slice or the error text, and the calls made. -/
def fetchMessages (txt : ErrorText) (net : Net) (producerHost : Str) :
    Except Str Slice × List Outbound :=
  let call : Outbound := ⟨"GET".toList, messagesURL producerHost, []⟩
  match net call with
  | .error err => (.error ("failed to connect to producer service: ".toList ++ err), [call])
  | .ok resp =>
    if resp.StatusCode ≠ 200 then
      (.error ("producer service returned non-200 status code: ".toList ++
        formatInt resp.StatusCode ++ " - ".toList ++ resp.Body), [call])
    else
      match decodeSlice resp.Body with
      | none =>
        (.error ("failed to decode response: ".toList ++ txt.decodeSlice resp.Body), [call])
      | some messages => (.ok messages, [call])

/-- The function `createMessage`: the decoded message or the error text, and the calls made. -/
def createMessage (txt : ErrorText) (net : Net) (producerHost : Str) (message : Message) :
    Except Str Message × List Outbound :=
  match marshalMessage message with
  | none => (.error ("failed to marshal message: ".toList ++ txt.marshalMessage message), [])
  | some jsonData =>
    let call : Outbound := ⟨"POST".toList, messagesURL producerHost, jsonData⟩
    match net call with
    | .error err => (.error ("failed to connect to producer service: ".toList ++ err), [call])
    | .ok resp =>
      if resp.StatusCode ≠ 201 then
        (.error ("producer service returned non-201 status code: ".toList ++
          formatInt resp.StatusCode ++ " - ".toList ++ resp.Body), [call])
      else
        match decodeMessage resp.Body with
        | none =>
          (.error ("failed to decode response: ".toList ++ txt.decodeMessage resp.Body), [call])
        | some createdMessage => (.ok createdMessage, [call])

/-- The JSON object the `/fetch-messages` handler writes: a map with the keys
`consumer_hostname`, `messages` and `timestamp`, which the encoder writes in sorted order. -/
def marshalFetched (hostname : Str) (now : Time) (messages : Slice) : Option Str :=
  match marshalSlice messages with
  | none => none
  | some ms =>
    some (['{'] ++ quote "consumer_hostname".toList ++ [':'] ++ quote hostname ++ [','] ++
      quote "messages".toList ++ [':'] ++ ms ++ [','] ++
      quote "timestamp".toList ++ [':'] ++ quote (formatRFC3339 now) ++ ['}'])

/-- The `/fetch-messages` handler; `now` is the reading of its `time.Now()`. -/
def handleFetchMessages (txt : ErrorText) (net : Net) (producerHost hostname : Str) (now : Time) :
    Response × List Outbound :=
  match fetchMessages txt net producerHost with
  | (.error err, sent) => (httpError ("Error fetching messages: ".toList ++ err) 500, sent)
  | (.ok messages, sent) =>
    (⟨200, "application/json".toList, encodeBody (marshalFetched hostname now messages)⟩, sent)

/-- The `/create-message` handler. -/
def handleCreateMessage (txt : ErrorText) (net : Net) (producerHost : Str) (r : Request) :
    Response × List Outbound :=
  if r.Method ≠ "POST".toList then (httpError "Method not allowed".toList 405, [])
  else
    match decodeMessage r.Body with
    | none => (httpError (txt.decodeMessage r.Body) 400, [])
    | some message =>
      match createMessage txt net producerHost message with
      | (.error err, sent) => (httpError ("Error creating message: ".toList ++ err) 500, sent)
      | (.ok createdMessage, sent) =>
        (⟨201, "application/json".toList, encodeBody (marshalMessage createdMessage)⟩, sent)

end Consumer

/-! # producerv2.go: the connection checker -/

namespace ConsumerV2

/-- The check interval in seconds as `main` computes it from `CONNECTION_CHECK_INTERVAL`:
30 unless the variable is set to text that `strconv.Atoi` accepts with a positive value. -/
def checkInterval (checkIntervalStr : Str) : Int :=
  if checkIntervalStr ≠ [] then
    match Atoi checkIntervalStr with
    | some val => if val > 0 then val else 30
    | none => 30
  else 30

/-- The constant `time.Second`, in nanoseconds. -/
def Second : Int := 1000000000

/-- The argument `time.Duration(checkInterval)*time.Second` of `verifyConnectionPeriodically`:
a product of two `int64`, which wraps. -/
def tickerInterval (checkIntervalStr : Str) : Int :=
  wrapInt64 (checkInterval checkIntervalStr * Second)

/-- The call `time.NewTicker(d)`: it panics when `d` is not positive. -/
def NewTicker (d : Int) : Except Str Int :=
  if d ≤ 0 then .error "non-positive interval for NewTicker".toList else .ok d

/-- What the `select` of the checker loop receives. -/
inductive Signal where
  | tick
  | done
deriving DecidableEq, Repr

/-- The loop of `verifyConnectionPeriodically` after the first check: one more check for every
tick, until the context is done; the result is the number of checks made. -/
def checkLoop (checks : Nat) : List Signal → Nat
  | [] => checks
  | Signal.tick :: rest => checkLoop (checks + 1) rest
  | Signal.done :: _ => checks

/-- The function `verifyConnectionPeriodically`, run against the signals its `select` receives: the
panic of `NewTicker`, or the number of connection checks made (one at once, one per tick). -/
def verifyConnectionPeriodically (interval : Int) (signals : List Signal) : Except Str Nat :=
  match NewTicker interval with
  | .error e => .error e
  | .ok _ => .ok (checkLoop 1 signals)

end ConsumerV2

/-! # The two services together -/

namespace Deployment

/-- The network of a consumer whose producer is up and holds `messages`: a call is answered by
`handleMessages`, which meets the clock readings `t1`, `t2`. -/
def producerNet (txt : ErrorText) (messages : Slice) (t1 t2 : Time) : Net :=
  fun call => .ok (Producer.handleMessages txt messages ⟨call.Method, call.Body⟩ t1 t2).2

/-- The producer's slice once it has handled the calls the consumer made. -/
def deliver (txt : ErrorText) (messages : Slice) (t1 t2 : Time) : List Outbound → Slice
  | [] => messages
  | call :: rest =>
    deliver txt (Producer.handleMessages txt messages ⟨call.Method, call.Body⟩ t1 t2).1 t1 t2 rest

/-- A request to the consumer's `/create-message` with the producer up: the consumer's response
and the producer's slice afterwards. -/
def createMessage (txt : ErrorText) (messages : Slice) (producerHost : Str) (r : Request)
    (t1 t2 : Time) : Response × Slice :=
  let out := Consumer.handleCreateMessage txt (producerNet txt messages t1 t2) producerHost r
  (out.1, deliver txt messages t1 t2 out.2)

/-- A request to the consumer's `/fetch-messages` with the producer up. -/
def fetchMessages (txt : ErrorText) (messages : Slice) (producerHost hostname : Str)
    (now t1 t2 : Time) : Response × Slice :=
  let out :=
    Consumer.handleFetchMessages txt (producerNet txt messages t1 t2) producerHost hostname now
  (out.1, deliver txt messages t1 t2 out.2)

end Deployment

/-! # Sample data -/

namespace Sample

/-- Error texts for the sample runs: the decoder's text for a body that breaks off, the
encoder's text for a zone offset of a day. -/
def texts : ErrorText :=
  ⟨fun _ => "unexpected EOF".toList, fun _ => "unexpected EOF".toList,
    fun _ => ("json: error calling MarshalJSON for type time.Time: " ++
      "Time.MarshalJSON: timezone hour outside of range [0,23]").toList⟩

/-- A request body with all three fields set by the client. -/
def body : Str :=
  "\x7b\"id\":\"zz\",\"content\":\"hi\",\"timestamp\":\"2020-02-02T02:02:02Z\"\x7d".toList

/-- What `body` decodes to. -/
def decoded : Message := ⟨"zz".toList, "hi".toList, ⟨2020, 2, 2, 2, 2, 2, 0, 0⟩⟩

/-- A body whose timestamp has a one-digit hour, a comma before the fraction and a zone offset of
24 hours: the decoder takes it, the encoder cannot write the timestamp again. -/
def looseBody : Str :=
  "\x7b\"content\":\"hi\",\"timestamp\":\"2020-02-02T2:02:02,5+24:00\"\x7d".toList

/-- What `looseBody` decodes to. -/
def looseDecoded : Message := ⟨[], "hi".toList, ⟨2020, 2, 2, 2, 2, 2, 500000000, 1440⟩⟩

/-- A body that is not JSON. -/
def badBody : Str := "\x7b\"content\":".toList

/-- A clock reading. -/
def clock1 : Time := ⟨2024, 3, 1, 5, 30, 0, 5000, 330⟩

/-- A later clock reading. -/
def clock2 : Time := ⟨2024, 3, 1, 5, 30, 0, 7000, 330⟩

/-- A stored message. -/
def stored : Message := ⟨"1709251200000005000".toList, "first <1>".toList, clock1⟩

/-- A POST of `body` that meets the clock readings `clock1` and `clock2`. -/
def post : Producer.Event := ⟨⟨"POST".toList, body⟩, clock1, clock2⟩

/-- A network whose producer answers every call with 503 and the body `busy`. -/
def busy : Net := fun _ => .ok ⟨503, "text/plain".toList, "busy".toList⟩

/-- A network whose producer answers every call with 200 and the encoding of `[stored]`. -/
def serving : Net :=
  fun _ => .ok ⟨200, "application/json".toList, encodeBody (marshalSlice (some [stored]))⟩

/-- A network whose producer answers every call with 201 and the encoding of `stored`. -/
def created : Net :=
  fun _ => .ok ⟨201, "application/json".toList, encodeBody (marshalMessage stored)⟩

/-- A network on which no call gets through. -/
def down : Net := fun _ => .error "connection refused".toList

end Sample

deriving instance DecidableEq for Except

/-! # Properties -/

namespace GoLib

theorem digitVal_digitChar (d : Nat) (h : d < 10) : digitVal (digitChar d) = d := by
  have : ∀ d, d < 10 → digitVal (digitChar d) = d := by decide
  exact this d h

theorem digitsVal_append_single (s : Str) (c : Char) :
    digitsVal (s ++ [c]) = digitsVal s * 10 + digitVal c := by
  simp [digitsVal, List.foldl_append]

theorem digitsVal_decDigits (fuel n : Nat) (h : n < fuel) : digitsVal (decDigits fuel n) = n := by
  induction fuel generalizing n with
  | zero => omega
  | succ k ih =>
    unfold decDigits
    by_cases h10 : n < 10
    · simp [h10, digitsVal, digitVal_digitChar n h10]
    · rw [if_neg h10, digitsVal_append_single, ih (n / 10) (by omega),
        digitVal_digitChar _ (Nat.mod_lt _ (by decide))]
      omega

theorem digitsVal_formatNat (n : Nat) : digitsVal (formatNat n) = n :=
  digitsVal_decDigits (n + 1) n (by omega)

theorem decDigits_head (fuel n : Nat) :
    ∃ d rest, d < 10 ∧ decDigits (fuel + 1) n = digitChar d :: rest := by
  induction fuel generalizing n with
  | zero =>
    unfold decDigits
    by_cases h10 : n < 10
    · exact ⟨n, [], h10, by simp [h10]⟩
    · exact ⟨n % 10, [], Nat.mod_lt _ (by decide), by simp [h10, decDigits]⟩
  | succ k ih =>
    unfold decDigits
    by_cases h10 : n < 10
    · exact ⟨n, [], h10, by simp [h10]⟩
    · obtain ⟨d, rest, hd, hr⟩ := ih (n / 10)
      exact ⟨d, rest ++ [digitChar (n % 10)], hd, by simp [h10, hr]⟩

theorem digitChar_ne_minus (d : Nat) (h : d < 10) : digitChar d ≠ '-' := by
  have : ∀ d, d < 10 → digitChar d ≠ '-' := by decide
  exact this d h

theorem readInt_formatInt (v : Int) : readInt (formatInt v) = v := by
  unfold formatInt
  by_cases hv : v < 0
  · simp only [hv, if_true, readInt, digitsVal_formatNat]
    omega
  · obtain ⟨d, rest, hd, hr⟩ := decDigits_head v.natAbs v.natAbs
    have hval := digitsVal_formatNat v.natAbs
    unfold formatNat at hval ⊢
    rw [if_neg hv, hr]
    rw [hr] at hval
    simp only [readInt, digitChar_ne_minus d hd, if_false, hval]
    omega

theorem formatInt_injective : Function.Injective formatInt := by
  intro a b h
  have := congrArg readInt h
  rwa [readInt_formatInt, readInt_formatInt] at this

theorem formatInt_ne_nil (v : Int) : formatInt v ≠ [] := by
  unfold formatInt
  by_cases hv : v < 0
  · simp [hv]
  · obtain ⟨d, rest, _, hr⟩ := decDigits_head v.natAbs v.natAbs
    simp [hv, formatNat, hr]

end GoLib

namespace GoLib

theorem marshalJSON_of_valid (t : Time) (h : t.Valid) :
    t.MarshalJSON = some ('"' :: (formatRFC3339Nano t ++ ['"'])) := by
  obtain ⟨hy, _, _, _, _, _, _, _, _, ho1, ho2⟩ := h
  unfold Time.MarshalJSON
  have h1 : ¬ 10000 ≤ t.year := by omega
  have h2 : ¬ 24 ≤ t.offset.natAbs / 60 := by omega
  simp [h1, h2]

theorem marshalMessage_of_valid (m : Message) (h : m.Timestamp.Valid) :
    ∃ js, marshalMessage m = some js := by
  unfold marshalMessage
  rw [marshalJSON_of_valid _ h]
  exact ⟨_, rfl⟩

end GoLib

/-! ## The fuel of the scanner is always enough -/

namespace GoLib

theorem skipWS_length (s : Str) : (skipWS s).length ≤ s.length :=
  (List.dropWhile_suffix _).length_le

theorem skipWS_cons_length (s : Str) (c : Char) (t : Str) (h : skipWS s = c :: t) :
    t.length < s.length := by
  have := skipWS_length s
  rw [h] at this
  simp at this
  omega

theorem scanString_length (n : Nat) : ∀ (s raw rest : Str), s.length ≤ n →
    scanString s = some (raw, rest) → rest.length ≤ s.length := by
  induction n with
  | zero =>
    intro s raw rest hn h
    have : s = [] := List.length_eq_zero.mp (by omega)
    subst this
    rw [scanString.eq_def] at h
    cases h
  | succ n ih =>
    intro s raw rest hn h
    rw [scanString.eq_def] at h
    split at h
    · cases h
    · next c rest0 =>
      simp only [List.length_cons] at hn ⊢
      split at h
      · simp only [Option.some.injEq, Prod.mk.injEq] at h
        rw [← h.2]; omega
      · split at h
        · split at h
          · cases h
          · next e rest2 =>
            simp only [List.length_cons] at hn ⊢
            split at h
            · split at h
              · next a b c2 d rest3 =>
                simp only [List.length_cons] at hn ⊢
                split at h
                · cases hs : scanString rest3 with
                  | none => rw [hs] at h; cases h
                  | some p =>
                    rw [hs] at h
                    simp only [Option.map_some', Option.some.injEq, Prod.mk.injEq] at h
                    have := ih rest3 p.1 p.2 (by omega) hs
                    rw [← h.2]; omega
                · cases h
              · cases h
            · split at h
              · cases hs : scanString rest2 with
                | none => rw [hs] at h; cases h
                | some p =>
                  rw [hs] at h
                  simp only [Option.map_some', Option.some.injEq, Prod.mk.injEq] at h
                  have := ih rest2 p.1 p.2 (by omega) hs
                  rw [← h.2]; omega
              · cases h
        · split at h
          · cases h
          · cases hs : scanString rest0 with
            | none => rw [hs] at h; cases h
            | some p =>
              rw [hs] at h
              simp only [Option.map_some', Option.some.injEq, Prod.mk.injEq] at h
              have := ih rest0 p.1 p.2 (by omega) hs
              rw [← h.2]; omega

theorem scanDigits_length (s ds rest : Str) (h : scanDigits s = some (ds, rest)) :
    rest.length ≤ s.length := by
  unfold scanDigits at h
  split at h
  · split at h
    · simp only [Option.some.injEq, Prod.mk.injEq] at h
      rw [← h.2]
      exact (List.dropWhile_suffix _).length_le
    · cases h
  · cases h

theorem scanInt_length (s ds rest : Str) (h : scanInt s = some (ds, rest)) :
    rest.length ≤ s.length := by
  unfold scanInt at h
  split at h
  · split at h
    · simp only [Option.some.injEq, Prod.mk.injEq] at h
      rw [← h.2]; simp
    · exact scanDigits_length _ _ _ h
  · cases h

theorem scanFrac_length (s ds rest : Str) (h : scanFrac s = some (ds, rest)) :
    rest.length ≤ s.length := by
  unfold scanFrac at h
  split at h
  · next c t =>
    split at h
    · cases hs : scanDigits t with
      | none => rw [hs] at h; cases h
      | some p =>
        rw [hs] at h
        simp only [Option.map_some', Option.some.injEq, Prod.mk.injEq] at h
        have := scanDigits_length t p.1 p.2 hs
        rw [← h.2]; simp; omega
    · simp only [Option.some.injEq, Prod.mk.injEq] at h
      rw [← h.2]
  · simp only [Option.some.injEq, Prod.mk.injEq] at h
    rw [← h.2]

theorem scanExp_length (s ds rest : Str) (h : scanExp s = some (ds, rest)) :
    rest.length ≤ s.length := by
  unfold scanExp at h
  split at h
  · next c t =>
    split at h
    · split at h
      · next sg t2 =>
        split at h
        · cases hs : scanDigits t2 with
          | none => rw [hs] at h; cases h
          | some p =>
            rw [hs] at h
            simp only [Option.map_some', Option.some.injEq, Prod.mk.injEq] at h
            have := scanDigits_length t2 p.1 p.2 hs
            rw [← h.2]; simp; omega
        · cases hs : scanDigits (sg :: t2) with
          | none => rw [hs] at h; cases h
          | some p =>
            rw [hs] at h
            simp only [Option.map_some', Option.some.injEq, Prod.mk.injEq] at h
            have := scanDigits_length (sg :: t2) p.1 p.2 hs
            rw [← h.2]; simp at this ⊢; omega
      · cases h
    · simp only [Option.some.injEq, Prod.mk.injEq] at h
      rw [← h.2]
  · simp only [Option.some.injEq, Prod.mk.injEq] at h
    rw [← h.2]

theorem scanSign_length (s : Str) : (scanSign s).2.length ≤ s.length := by
  unfold scanSign
  split
  · split <;> simp
  · simp

theorem scanNumber_length (s raw rest : Str) (h : scanNumber s = some (raw, rest)) :
    rest.length ≤ s.length := by
  unfold scanNumber at h
  split at h
  · cases h
  · next ip s2 h1 =>
    split at h
    · cases h
    · next fp s3 h2 =>
      split at h
      · cases h
      · next ep s4 h3 =>
        simp only [Option.some.injEq, Prod.mk.injEq] at h
        have l0 := scanSign_length s
        have l1 := scanInt_length _ _ _ h1
        have l2 := scanFrac_length _ _ _ h2
        have l3 := scanExp_length _ _ _ h3
        rw [← h.2]
        omega

theorem scanLiteral_length (lit : Str) (v w : Json) (s rest : Str)
    (h : scanLiteral lit v s = some (w, rest)) : rest.length ≤ s.length := by
  unfold scanLiteral at h
  split at h
  · simp only [Option.some.injEq, Prod.mk.injEq] at h
    rw [← h.2]; simp
  · cases h


theorem valueFuel_step (f : Nat) (he : ElemsFuel f) (hm : MembersFuel f) : ValueFuel (f + 1) := by
  intro d s v rest h
  rw [parseValue] at h
  split at h
  · cases h
  · next c t hsk =>
    have hts := skipWS_cons_length s c t hsk
    have fin : ∀ (x : Option (Json × Str)), x = some (v, rest) → rest.length ≤ t.length + 1 →
        (∀ g', parseValue (g' + 1) d s = x) →
        rest.length ≤ s.length ∧
          ∀ g, 2 * (s.length - rest.length) + 1 ≤ g → parseValue g d s = some (v, rest) := by
      intro x hx hl hind
      refine ⟨by omega, fun g hg => ?_⟩
      obtain ⟨g', rfl⟩ : ∃ g', g = g' + 1 := ⟨g - 1, by omega⟩
      rw [hind g', hx]
    split at h
    · next hc =>
      cases hs : scanString t with
      | none => rw [hs] at h; cases h
      | some p =>
        rw [hs] at h
        simp only [Option.map_some', Option.some.injEq, Prod.mk.injEq] at h
        have hl := scanString_length t.length t p.1 p.2 (le_refl _) hs
        obtain ⟨hv, hr⟩ := h
        subst hr
        apply fin _ rfl (by omega)
        intro g'
        rw [parseValue, hsk]
        dsimp only
        rw [if_pos hc, hs, Option.map_some', hv]
    · next hc =>
      split at h
      · next hc2 =>
        by_cases hd0 : d = 0
        · rw [if_pos hd0] at h; cases h
        rw [if_neg hd0] at h
        split at h
        · next c2 t2 hsk2 =>
          have ht2 := skipWS_cons_length t c2 t2 hsk2
          split at h
          · next hc3 =>
            simp only [Option.some.injEq, Prod.mk.injEq] at h
            obtain ⟨hv, hr⟩ := h
            subst hr
            apply fin _ rfl (by omega)
            intro g'
            rw [parseValue, hsk]
            dsimp only
            rw [if_neg hc, if_pos hc2, if_neg hd0, hsk2]
            dsimp only
            rw [if_pos hc3, hv]
          · next hc3 =>
            cases hp : parseMembers f (d - 1) t with
            | none => rw [hp] at h; cases h
            | some p =>
              rw [hp] at h
              simp only [Option.map_some', Option.some.injEq, Prod.mk.injEq] at h
              obtain ⟨hv, hr⟩ := h
              subst hr
              obtain ⟨hl, hfu⟩ := hm (d - 1) t p.1 p.2 hp
              refine ⟨by omega, fun g hg => ?_⟩
              obtain ⟨g', rfl⟩ : ∃ g', g = g' + 1 := ⟨g - 1, by omega⟩
              rw [parseValue, hsk]
              dsimp only
              rw [if_neg hc, if_pos hc2, if_neg hd0, hsk2]
              dsimp only
              rw [if_neg hc3, hfu g' (by omega), Option.map_some', hv]
        · cases h
      · next hc2 =>
        split at h
        · next hc4 =>
          by_cases hd0 : d = 0
          · rw [if_pos hd0] at h; cases h
          rw [if_neg hd0] at h
          split at h
          · next c2 t2 hsk2 =>
            have ht2 := skipWS_cons_length t c2 t2 hsk2
            split at h
            · next hc3 =>
              simp only [Option.some.injEq, Prod.mk.injEq] at h
              obtain ⟨hv, hr⟩ := h
              subst hr
              apply fin _ rfl (by omega)
              intro g'
              rw [parseValue, hsk]
              dsimp only
              rw [if_neg hc, if_neg hc2, if_pos hc4, if_neg hd0, hsk2]
              dsimp only
              rw [if_pos hc3, hv]
            · next hc3 =>
              cases hp : parseElems f (d - 1) t with
              | none => rw [hp] at h; cases h
              | some p =>
                rw [hp] at h
                simp only [Option.map_some', Option.some.injEq, Prod.mk.injEq] at h
                obtain ⟨hv, hr⟩ := h
                subst hr
                obtain ⟨hl, hfu⟩ := he (d - 1) t p.1 p.2 hp
                refine ⟨by omega, fun g hg => ?_⟩
                obtain ⟨g', rfl⟩ : ∃ g', g = g' + 1 := ⟨g - 1, by omega⟩
                rw [parseValue, hsk]
                dsimp only
                rw [if_neg hc, if_neg hc2, if_pos hc4, if_neg hd0, hsk2]
                dsimp only
                rw [if_neg hc3, hfu g' (by omega), Option.map_some', hv]
          · cases h
        · next hc4 =>
          have hlit : ∀ (lit : Str) (w : Json), scanLiteral lit w (c :: t) = some (v, rest) →
              lit ≠ [] → rest.length ≤ t.length := by
            intro lit w hw hne
            unfold scanLiteral at hw
            split at hw
            · simp only [Option.some.injEq, Prod.mk.injEq] at hw
              rw [← hw.2]
              cases lit with
              | nil => exact absurd rfl hne
              | cons a l => simp
            · cases hw
          split at h
          · next hc5 =>
            apply fin _ h (by have := hlit _ _ h (by simp); omega)
            intro g'
            rw [parseValue, hsk]
            dsimp only
            rw [if_neg hc, if_neg hc2, if_neg hc4, if_pos hc5]
          · next hc5 =>
            split at h
            · next hc6 =>
              apply fin _ h (by have := hlit _ _ h (by simp); omega)
              intro g'
              rw [parseValue, hsk]
              dsimp only
              rw [if_neg hc, if_neg hc2, if_neg hc4, if_neg hc5, if_pos hc6]
            · next hc6 =>
              split at h
              · next hc7 =>
                apply fin _ h (by have := hlit _ _ h (by simp); omega)
                intro g'
                rw [parseValue, hsk]
                dsimp only
                rw [if_neg hc, if_neg hc2, if_neg hc4, if_neg hc5, if_neg hc6, if_pos hc7]
              · next hc7 =>
                cases hn : scanNumber (c :: t) with
                | none => rw [hn] at h; cases h
                | some p =>
                  rw [hn] at h
                  simp only [Option.map_some', Option.some.injEq, Prod.mk.injEq] at h
                  obtain ⟨hv, hr⟩ := h
                  subst hr
                  have hl := scanNumber_length (c :: t) p.1 p.2 hn
                  simp only [List.length_cons] at hl
                  apply fin _ rfl hl
                  intro g'
                  rw [parseValue, hsk]
                  dsimp only
                  rw [if_neg hc, if_neg hc2, if_neg hc4, if_neg hc5, if_neg hc6, if_neg hc7, hn,
                    Option.map_some', hv]


theorem elemsFuel_step (f : Nat) (hv : ValueFuel f) (he : ElemsFuel f) : ElemsFuel (f + 1) := by
  intro d s vs rest h
  rw [parseElems] at h
  split at h
  · cases h
  · next v r hp =>
    obtain ⟨hl, hfu⟩ := hv d s v r hp
    split at h
    · next c r2 hsk =>
      have hr2 := skipWS_cons_length r c r2 hsk
      split at h
      · next hc =>
        cases hq : parseElems f d r2 with
        | none => rw [hq] at h; cases h
        | some p =>
          rw [hq] at h
          simp only [Option.map_some', Option.some.injEq, Prod.mk.injEq] at h
          obtain ⟨hvs, hr⟩ := h
          subst hr
          obtain ⟨hl2, hfu2⟩ := he d r2 p.1 p.2 hq
          refine ⟨by omega, fun g hg => ?_⟩
          obtain ⟨g', rfl⟩ : ∃ g', g = g' + 1 := ⟨g - 1, by omega⟩
          rw [parseElems, hfu g' (by omega)]
          dsimp only
          rw [hsk]
          dsimp only
          rw [if_pos hc, hfu2 g' (by omega), Option.map_some', hvs]
      · next hc =>
        split at h
        · next hc2 =>
          simp only [Option.some.injEq, Prod.mk.injEq] at h
          obtain ⟨hvs, hr⟩ := h
          subst hr
          refine ⟨by omega, fun g hg => ?_⟩
          obtain ⟨g', rfl⟩ : ∃ g', g = g' + 1 := ⟨g - 1, by omega⟩
          rw [parseElems, hfu g' (by omega)]
          dsimp only
          rw [hsk]
          dsimp only
          rw [if_neg hc, if_pos hc2, hvs]
        · cases h
    · cases h

theorem membersFuel_step (f : Nat) (hv : ValueFuel f) (hm : MembersFuel f) :
    MembersFuel (f + 1) := by
  intro d s kvs rest h
  rw [parseMembers] at h
  split at h
  · next c t hsk =>
    have hts := skipWS_cons_length s c t hsk
    split at h
    · next hc =>
      split at h
      · cases h
      · next k r hs =>
        have hlr := scanString_length t.length t k r (le_refl _) hs
        split at h
        · next c2 r2 hsk2 =>
          have hr2 := skipWS_cons_length r c2 r2 hsk2
          split at h
          · next hc2 =>
            split at h
            · cases h
            · next v r3 hp =>
              obtain ⟨hl3, hfu⟩ := hv d r2 v r3 hp
              split at h
              · next c3 r4 hsk3 =>
                have hr4 := skipWS_cons_length r3 c3 r4 hsk3
                split at h
                · next hc3 =>
                  cases hq : parseMembers f d r4 with
                  | none => rw [hq] at h; cases h
                  | some p =>
                    rw [hq] at h
                    simp only [Option.map_some', Option.some.injEq, Prod.mk.injEq] at h
                    obtain ⟨hkvs, hr⟩ := h
                    subst hr
                    obtain ⟨hl4, hfu4⟩ := hm d r4 p.1 p.2 hq
                    refine ⟨by omega, fun g hg => ?_⟩
                    obtain ⟨g', rfl⟩ : ∃ g', g = g' + 1 := ⟨g - 1, by omega⟩
                    rw [parseMembers, hsk]
                    dsimp only
                    rw [if_pos hc, hs]
                    dsimp only
                    rw [hsk2]
                    dsimp only
                    rw [if_pos hc2, hfu g' (by omega)]
                    dsimp only
                    rw [hsk3]
                    dsimp only
                    rw [if_pos hc3, hfu4 g' (by omega), Option.map_some', hkvs]
                · next hc3 =>
                  split at h
                  · next hc4 =>
                    simp only [Option.some.injEq, Prod.mk.injEq] at h
                    obtain ⟨hkvs, hr⟩ := h
                    subst hr
                    refine ⟨by omega, fun g hg => ?_⟩
                    obtain ⟨g', rfl⟩ : ∃ g', g = g' + 1 := ⟨g - 1, by omega⟩
                    rw [parseMembers, hsk]
                    dsimp only
                    rw [if_pos hc, hs]
                    dsimp only
                    rw [hsk2]
                    dsimp only
                    rw [if_pos hc2, hfu g' (by omega)]
                    dsimp only
                    rw [hsk3]
                    dsimp only
                    rw [if_neg hc3, if_pos hc4, hkvs]
                  · cases h
              · cases h
          · cases h
        · cases h
    · cases h
  · cases h

theorem parse_fuel (f : Nat) : ValueFuel f ∧ ElemsFuel f ∧ MembersFuel f := by
  induction f with
  | zero =>
    refine ⟨fun d s v rest h => ?_, fun d s vs rest h => ?_, fun d s kvs rest h => ?_⟩
    · rw [parseValue] at h; cases h
    · rw [parseElems] at h; cases h
    · rw [parseMembers] at h; cases h
  | succ f ih =>
    exact ⟨valueFuel_step f ih.2.1 ih.2.2, elemsFuel_step f ih.1 ih.2.1,
      membersFuel_step f ih.1 ih.2.2⟩

/-- The fuel of `scanValue` never decides the outcome: whatever some amount of fuel scans from a
body within the nesting limit, `scanValue` scans too. -/
theorem scanValue_of_parseValue (f : Nat) (body : Str) (v : Json) (rest : Str)
    (h : parseValue f maxNestingDepth body = some (v, rest)) : scanValue body = some v := by
  obtain ⟨hl, hfu⟩ := (parse_fuel f).1 maxNestingDepth body v rest h
  unfold scanValue
  rw [hfu (2 * body.length + 2) (by omega)]
  rfl

/-- A body that `scanValue` rejects is rejected with every amount of fuel: it is not JSON, or
it is nested too deeply. -/
theorem parseValue_none_of_scanValue (body : Str) (h : scanValue body = none) (f : Nat) :
    parseValue f maxNestingDepth body = none := by
  cases hp : parseValue f maxNestingDepth body with
  | none => rfl
  | some p =>
    have := scanValue_of_parseValue f body p.1 p.2 hp
    rw [h] at this
    cases this

/-- An array or object at a level where none may be opened is rejected. -/
theorem parseValue_depth_zero (f : Nat) (c : Char) (t : Str) (hc : c = '[' ∨ c = '{') :
    parseValue f 0 (c :: t) = none := by
  cases f with
  | zero => rw [parseValue]
  | succ f =>
    have hsk : skipWS (c :: t) = c :: t := by
      rcases hc with h | h <;> (subst h; simp [skipWS, List.dropWhile, isSpace])
    rw [parseValue, hsk]
    rcases hc with h | h <;> (subst h; simp)

/-- Arrays nested one level deeper than `depth` allows are rejected, whatever follows. -/
theorem parseValue_too_deep (d f : Nat) (rest : Str) :
    parseValue f d (List.replicate (d + 1) '[' ++ rest) = none := by
  induction d generalizing f with
  | zero => exact parseValue_depth_zero f '[' rest (Or.inl rfl)
  | succ d ih =>
    cases f with
    | zero => rw [parseValue]
    | succ f =>
      have hsk : ∀ t : Str, skipWS ('[' :: t) = '[' :: t := by
        intro t; simp [skipWS, List.dropWhile, isSpace]
      have hin : parseElems f d (List.replicate (d + 1) '[' ++ rest) = none := by
        cases f with
        | zero => rw [parseElems]
        | succ f => rw [parseElems, ih f]
      rw [List.replicate_succ, List.cons_append, parseValue, hsk]
      dsimp only
      rw [if_neg (by decide), if_neg (by decide), if_pos rfl, if_neg (by omega),
        List.replicate_succ, List.cons_append, hsk]
      dsimp only
      rw [if_neg (by decide), Nat.add_sub_cancel, ← List.cons_append, ← List.replicate_succ, hin]
      rfl

end GoLib

/-! ## Strings survive encoding and decoding -/

namespace GoLib

theorem scan_simple (e : Char) (rest : Str) (h1 : e ≠ 'u') (h2 : isSimpleEscape e = true) :
    scanString ('\\' :: e :: rest) = (scanString rest).map (fun p => ('\\' :: e :: p.1, p.2)) := by
  rw [scanString.eq_def]
  simp [h1, h2]

theorem scan_u (a b c d : Char) (rest : Str) (ha : isHex a = true) (hb : isHex b = true)
    (hc : isHex c = true) (hd : isHex d = true) :
    scanString ('\\' :: 'u' :: a :: b :: c :: d :: rest) =
      (scanString rest).map (fun p => ('\\' :: 'u' :: a :: b :: c :: d :: p.1, p.2)) := by
  rw [scanString.eq_def]
  simp [ha, hb, hc, hd]

theorem scan_plain (c : Char) (rest : Str) (h1 : c ≠ '"') (h2 : c ≠ '\\') (h3 : ¬ c.toNat < 32) :
    scanString (c :: rest) = (scanString rest).map (fun p => (c :: p.1, p.2)) := by
  rw [scanString.eq_def]
  simp [h1, h2, h3]

theorem isHex_hexDigit (d : Nat) (h : d < 16) : isHex (hexDigit d) = true := by
  have : ∀ d, d < 16 → isHex (hexDigit d) = true := by decide
  exact this d h

theorem escapeChar_small (c : Char) (h : c.toNat < 32 ∨ c = '<' ∨ c = '>' ∨ c = '&') :
    c.toNat < 128 := by
  rcases h with h | h | h | h
  · omega
  · subst h; decide
  · subst h; decide
  · subst h; decide

theorem scanString_escapeChar (c : Char) (rest : Str) :
    scanString (escapeChar c ++ rest) =
      (scanString rest).map (fun p => (escapeChar c ++ p.1, p.2)) := by
  by_cases h1 : c = '"'
  · subst h1; exact scan_simple _ _ (by decide) (by decide)
  by_cases h2 : c = '\\'
  · subst h2; exact scan_simple _ _ (by decide) (by decide)
  by_cases h3 : c = '\x08'
  · subst h3; exact scan_simple _ _ (by decide) (by decide)
  by_cases h4 : c = '\x0c'
  · subst h4; exact scan_simple _ _ (by decide) (by decide)
  by_cases h5 : c = '\n'
  · subst h5; exact scan_simple _ _ (by decide) (by decide)
  by_cases h6 : c = '\r'
  · subst h6; exact scan_simple _ _ (by decide) (by decide)
  by_cases h7 : c = '\t'
  · subst h7; exact scan_simple _ _ (by decide) (by decide)
  by_cases h8 : c.toNat < 32 ∨ c = '<' ∨ c = '>' ∨ c = '&'
  · have hn : c.toNat < 128 := escapeChar_small c h8
    have he : escapeChar c =
        ['\\', 'u', '0', '0', hexDigit (c.toNat / 16), hexDigit (c.toNat % 16)] := by
      unfold escapeChar
      rw [if_neg h1, if_neg h2, if_neg h3, if_neg h4, if_neg h5, if_neg h6, if_neg h7, if_pos h8]
    rw [he]
    exact scan_u _ _ _ _ _ (by decide) (by decide) (isHex_hexDigit _ (by omega))
      (isHex_hexDigit _ (by omega))
  by_cases h9 : c.toNat = 8232
  · have he : escapeChar c = ['\\', 'u', '2', '0', '2', '8'] := by
      unfold escapeChar
      rw [if_neg h1, if_neg h2, if_neg h3, if_neg h4, if_neg h5, if_neg h6, if_neg h7, if_neg h8,
        if_pos h9]
    rw [he]
    exact scan_u _ _ _ _ _ (by decide) (by decide) (by decide) (by decide)
  by_cases h10 : c.toNat = 8233
  · have he : escapeChar c = ['\\', 'u', '2', '0', '2', '9'] := by
      unfold escapeChar
      rw [if_neg h1, if_neg h2, if_neg h3, if_neg h4, if_neg h5, if_neg h6, if_neg h7, if_neg h8,
        if_neg h9, if_pos h10]
    rw [he]
    exact scan_u _ _ _ _ _ (by decide) (by decide) (by decide) (by decide)
  · have he : escapeChar c = [c] := by
      unfold escapeChar
      rw [if_neg h1, if_neg h2, if_neg h3, if_neg h4, if_neg h5, if_neg h6, if_neg h7, if_neg h8,
        if_neg h9, if_neg h10]
    rw [he]
    exact scan_plain c rest h1 h2 (fun h => h8 (Or.inl h))

theorem scanString_escape (s rest : Str) :
    scanString (escape s ++ '"' :: rest) = some (escape s, rest) := by
  induction s with
  | nil => rw [escape, List.nil_append, scanString.eq_def]; simp
  | cons c cs ih => rw [escape, List.append_assoc, scanString_escapeChar, ih]; rfl

theorem unq_simple (e : Char) (rest : Str) (h1 : e ≠ 'u') :
    unquoteAux none ('\\' :: e :: rest) = simpleEscape e :: unquoteAux none rest := by
  rw [unquoteAux.eq_def]
  simp [h1, flushSurrogate]

theorem unq_u (a b c d : Char) (rest : Str) (h : getu4 a b c d < 55296) :
    unquoteAux none ('\\' :: 'u' :: a :: b :: c :: d :: rest) =
      Char.ofNat (getu4 a b c d) :: unquoteAux none rest := by
  rw [unquoteAux.eq_def]
  have h2 : ¬ (55296 ≤ getu4 a b c d ∧ getu4 a b c d < 57344) := by omega
  simp [h2]

theorem unq_plain (c : Char) (rest : Str) (h : c ≠ '\\') :
    unquoteAux none (c :: rest) = c :: unquoteAux none rest := by
  rw [unquoteAux.eq_def]
  simp [h, flushSurrogate]

theorem getu4_hex (n : Nat) (h : n < 128) :
    getu4 '0' '0' (hexDigit (n / 16)) (hexDigit (n % 16)) = n := by
  have : ∀ n, n < 128 → getu4 '0' '0' (hexDigit (n / 16)) (hexDigit (n % 16)) = n := by decide
  exact this n h

theorem unquoteAux_escapeChar (c : Char) (rest : Str) :
    unquoteAux none (escapeChar c ++ rest) = c :: unquoteAux none rest := by
  by_cases h1 : c = '"'
  · subst h1; exact unq_simple _ _ (by decide)
  by_cases h2 : c = '\\'
  · subst h2; exact unq_simple _ _ (by decide)
  by_cases h3 : c = '\x08'
  · subst h3; exact unq_simple _ _ (by decide)
  by_cases h4 : c = '\x0c'
  · subst h4; exact unq_simple _ _ (by decide)
  by_cases h5 : c = '\n'
  · subst h5; exact unq_simple _ _ (by decide)
  by_cases h6 : c = '\r'
  · subst h6; exact unq_simple _ _ (by decide)
  by_cases h7 : c = '\t'
  · subst h7; exact unq_simple _ _ (by decide)
  by_cases h8 : c.toNat < 32 ∨ c = '<' ∨ c = '>' ∨ c = '&'
  · have hn : c.toNat < 128 := escapeChar_small c h8
    have he : escapeChar c =
        ['\\', 'u', '0', '0', hexDigit (c.toNat / 16), hexDigit (c.toNat % 16)] := by
      unfold escapeChar
      rw [if_neg h1, if_neg h2, if_neg h3, if_neg h4, if_neg h5, if_neg h6, if_neg h7, if_pos h8]
    rw [he]
    have hg := getu4_hex c.toNat hn
    have := unq_u '0' '0' (hexDigit (c.toNat / 16)) (hexDigit (c.toNat % 16)) rest (by omega)
    rw [hg, Char.ofNat_toNat] at this
    exact this
  by_cases h9 : c.toNat = 8232
  · have he : escapeChar c = ['\\', 'u', '2', '0', '2', '8'] := by
      unfold escapeChar
      rw [if_neg h1, if_neg h2, if_neg h3, if_neg h4, if_neg h5, if_neg h6, if_neg h7, if_neg h8,
        if_pos h9]
    have hg : getu4 '2' '0' '2' '8' = 8232 := by decide
    have := unq_u '2' '0' '2' '8' rest (by omega)
    rw [hg, ← h9, Char.ofNat_toNat] at this
    rw [he]
    exact this
  by_cases h10 : c.toNat = 8233
  · have he : escapeChar c = ['\\', 'u', '2', '0', '2', '9'] := by
      unfold escapeChar
      rw [if_neg h1, if_neg h2, if_neg h3, if_neg h4, if_neg h5, if_neg h6, if_neg h7, if_neg h8,
        if_neg h9, if_pos h10]
    have hg : getu4 '2' '0' '2' '9' = 8233 := by decide
    have := unq_u '2' '0' '2' '9' rest (by omega)
    rw [hg, ← h10, Char.ofNat_toNat] at this
    rw [he]
    exact this
  · have he : escapeChar c = [c] := by
      unfold escapeChar
      rw [if_neg h1, if_neg h2, if_neg h3, if_neg h4, if_neg h5, if_neg h6, if_neg h7, if_neg h8,
        if_neg h9, if_neg h10]
    rw [he]
    exact unq_plain c rest h2

theorem unquote_escape (s : Str) : unquote (escape s) = s := by
  unfold unquote
  induction s with
  | nil => rfl
  | cons c cs ih => rw [escape, unquoteAux_escapeChar, ih]

end GoLib

/-! ## Times survive encoding and decoding -/

namespace GoLib

theorem isDigit_digitChar (d : Nat) (h : d < 10) : isDigit (digitChar d) = true := by
  have : ∀ d, d < 10 → isDigit (digitChar d) = true := by decide
  exact this d h

theorem getnum_fmt2 (n : Nat) (rest : Str) (fixed : Bool) (h : n < 100) :
    getnum (fmt2 n ++ rest) fixed = some (n, rest) := by
  have h1 := isDigit_digitChar _ (Nat.mod_lt (n / 10) (by decide : 0 < 10))
  have h2 := isDigit_digitChar _ (Nat.mod_lt n (by decide : 0 < 10))
  have v1 := digitVal_digitChar _ (Nat.mod_lt (n / 10) (by decide : 0 < 10))
  have v2 := digitVal_digitChar _ (Nat.mod_lt n (by decide : 0 < 10))
  simp only [fmt2, List.cons_append, List.nil_append, getnum, h1, h2, if_true, v1, v2,
    Option.some.injEq, Prod.mk.injEq, and_true]
  omega

theorem getyear_fmt4 (n : Nat) (rest : Str) (h : n ≤ 9999) :
    getyear (fmt4 n ++ rest) = some (n, rest) := by
  have h1 := isDigit_digitChar _ (Nat.mod_lt (n / 1000) (by decide : 0 < 10))
  have h2 := isDigit_digitChar _ (Nat.mod_lt (n / 100) (by decide : 0 < 10))
  have h3 := isDigit_digitChar _ (Nat.mod_lt (n / 10) (by decide : 0 < 10))
  have h4 := isDigit_digitChar _ (Nat.mod_lt n (by decide : 0 < 10))
  have v1 := digitVal_digitChar _ (Nat.mod_lt (n / 1000) (by decide : 0 < 10))
  have v2 := digitVal_digitChar _ (Nat.mod_lt (n / 100) (by decide : 0 < 10))
  have v3 := digitVal_digitChar _ (Nat.mod_lt (n / 10) (by decide : 0 < 10))
  have v4 := digitVal_digitChar _ (Nat.mod_lt n (by decide : 0 < 10))
  simp only [fmt4, List.cons_append, List.nil_append, getyear, h1, h2, h3, h4, and_self, if_true,
    digitsVal, List.foldl, v1, v2, v3, v4, Option.some.injEq, Prod.mk.injEq, and_true]
  omega

theorem skip_cons (c : Char) (rest : Str) : skip (c :: rest) c = some rest := by
  simp [skip]

theorem digitsVal_fmt9 (n : Nat) (h : n < 1000000000) : digitsVal (fmt9 n) = n := by
  simp [fmt9, digitsVal, digitVal_digitChar _ (Nat.mod_lt (n / 10) (by decide : 0 < 10)),
      digitVal_digitChar _ (Nat.mod_lt (n / 100) (by decide : 0 < 10)),
      digitVal_digitChar _ (Nat.mod_lt (n / 1000) (by decide : 0 < 10)),
      digitVal_digitChar _ (Nat.mod_lt (n / 10000) (by decide : 0 < 10)),
      digitVal_digitChar _ (Nat.mod_lt (n / 100000) (by decide : 0 < 10)),
      digitVal_digitChar _ (Nat.mod_lt (n / 1000000) (by decide : 0 < 10)),
      digitVal_digitChar _ (Nat.mod_lt (n / 10000000) (by decide : 0 < 10)),
      digitVal_digitChar _ (Nat.mod_lt (n / 100000000) (by decide : 0 < 10)),
      digitVal_digitChar _ (Nat.mod_lt n (by decide : 0 < 10))]
  omega

theorem parseZone_fmtZone (off : Int) (h1 : -1440 < off) (h2 : off < 1440) :
    parseZone (fmtZone off) = some off := by
  unfold fmtZone
  by_cases h0 : off = 0
  · subst h0; rfl
  · rw [if_neg h0]
    have hh := getnum_fmt2 (off.natAbs / 60) [] true (by omega)
    have hm := getnum_fmt2 (off.natAbs % 60) [] true (by omega)
    have hb1 : off.natAbs / 60 ≤ 24 := by omega
    have hb2 : off.natAbs % 60 ≤ 60 := by omega
    unfold fmt2 at hh hm ⊢
    simp only [List.cons_append, List.nil_append] at hh hm
    simp only [List.cons_append, List.nil_append, parseZone, hh, hm]
    by_cases hneg : off < 0
    · have ha : |off| = -off := abs_of_neg hneg
      simp [hneg, hb1, hb2]
      omega
    · have ha : |off| = off := abs_of_nonneg (by omega)
      simp [hneg, hb1, hb2]
      omega

theorem takeWhile_append_stop (p : Char → Bool) (a : Str) (c : Char) (rest : Str)
    (ha : ∀ x ∈ a, p x = true) (hc : p c = false) :
    (a ++ c :: rest).takeWhile p = a ∧ (a ++ c :: rest).dropWhile p = c :: rest := by
  induction a with
  | nil => simp [List.takeWhile, List.dropWhile, hc]
  | cons x xs ih =>
    have hx : p x = true := ha x (List.mem_cons_self _ _)
    have := ih (fun y hy => ha y (List.mem_cons_of_mem _ hy))
    simp [List.takeWhile, List.dropWhile, hx, this]

theorem fmtZone_head (off : Int) :
    ∃ c rest, fmtZone off = c :: rest ∧ isDigit c = false ∧ c ≠ '.' ∧ c ≠ ',' := by
  unfold fmtZone
  by_cases h0 : off = 0
  · exact ⟨'Z', [], by simp [h0], by decide, by decide, by decide⟩
  · by_cases hneg : off < 0
    · exact ⟨'-', fmt2 (off.natAbs / 60) ++ ':' :: fmt2 (off.natAbs % 60),
        by rw [if_neg h0, if_pos hneg], by decide, by decide, by decide⟩
    · exact ⟨'+', fmt2 (off.natAbs / 60) ++ ':' :: fmt2 (off.natAbs % 60),
        by rw [if_neg h0, if_neg hneg], by decide, by decide, by decide⟩

theorem dropTrailingZeros_split (l : Str) :
    ∃ k, l = dropTrailingZeros l ++ List.replicate k '0' := by
  refine ⟨(l.reverse.takeWhile (fun c => c == '0')).length, ?_⟩
  have h1 := List.takeWhile_append_dropWhile (fun c => c == '0') l.reverse
  have h2 : l.reverse.takeWhile (fun c => c == '0') =
      List.replicate (l.reverse.takeWhile (fun c => c == '0')).length '0' := by
    rw [List.eq_replicate_iff]
    refine ⟨rfl, fun b hb => ?_⟩
    have := List.mem_takeWhile_imp hb
    simpa using this
  have h3 : l = (l.reverse.dropWhile (fun c => c == '0')).reverse ++
      (l.reverse.takeWhile (fun c => c == '0')).reverse := by
    rw [← List.reverse_append, h1, List.reverse_reverse]
  unfold dropTrailingZeros
  rw [h2, List.reverse_replicate] at h3
  exact h3

theorem digitsVal_append_zeros (s : Str) (k : Nat) :
    digitsVal (s ++ List.replicate k '0') = digitsVal s * 10 ^ k := by
  induction k with
  | zero => simp
  | succ k ih =>
    rw [List.replicate_succ', ← List.append_assoc, digitsVal_append_single, ih]
    have : digitVal '0' = 0 := by decide
    rw [this, pow_succ]
    ring

theorem mem_fmt9_isDigit (n : Nat) (x : Char) (hx : x ∈ fmt9 n) : isDigit x = true := by
  simp only [fmt9, List.mem_cons, List.mem_singleton, List.not_mem_nil, or_false] at hx
  rcases hx with h | h | h | h | h | h | h | h | h <;>
    (subst h; exact isDigit_digitChar _ (Nat.mod_lt _ (by decide)))

theorem parseFrac_fmtFrac (n : Nat) (off : Int) (h : n < 1000000000) :
    parseFrac (fmtFrac n ++ fmtZone off) = (n, fmtZone off) := by
  obtain ⟨c, rest, hz, hcd, hcp, hcc⟩ := fmtZone_head off
  unfold fmtFrac
  by_cases h0 : n = 0
  · rw [if_pos h0, List.nil_append, hz, h0]
    unfold parseFrac
    cases rest <;> simp [hcp, hcc]
  · rw [if_neg h0]
    obtain ⟨k, hk⟩ := dropTrailingZeros_split (fmt9 n)
    have hval := digitsVal_fmt9 n h
    have hlen : (dropTrailingZeros (fmt9 n)).length + k = 9 := by
      have := congrArg List.length hk
      simpa [fmt9] using this.symm
    have hdig : ∀ x ∈ dropTrailingZeros (fmt9 n), isDigit x = true := by
      intro x hx
      apply mem_fmt9_isDigit n
      rw [hk]
      exact List.mem_append_left _ hx
    have hnum : digitsVal (dropTrailingZeros (fmt9 n)) * 10 ^ k = n := by
      rw [← digitsVal_append_zeros, ← hk, hval]
    cases hds : dropTrailingZeros (fmt9 n) with
    | nil =>
      rw [hds] at hnum
      simp [digitsVal] at hnum
      omega
    | cons d more =>
      rw [hds] at hdig hlen hnum
      have hd : isDigit d = true := hdig d (List.mem_cons_self _ _)
      have hmore : ∀ x ∈ more, isDigit x = true := fun x hx => hdig x (List.mem_cons_of_mem _ hx)
      obtain ⟨ht, hdr⟩ := takeWhile_append_stop isDigit more c rest hmore hcd
      rw [hz]
      simp only [List.cons_append, parseFrac, hd, true_or, and_self, if_true, ht, hdr]
      have hl9 : (d :: more).length ≤ 9 := by omega
      have hk9 : 9 - (d :: more).length = k := by omega
      unfold parseNanoseconds
      rw [List.take_of_length_le hl9, hk9, hnum]

theorem daysIn_le (m y : Nat) : daysIn m y ≤ 31 := by
  unfold daysIn
  split
  · split <;> omega
  · split <;> omega

theorem fmtDateTime_append (t : Time) (rest : Str) :
    fmtDateTime t ++ rest =
      fmt4 t.year ++ '-' :: (fmt2 t.month ++ '-' :: (fmt2 t.day ++ 'T' ::
        (fmt2 t.hour ++ ':' :: (fmt2 t.minute ++ ':' :: (fmt2 t.second ++ rest))))) := by
  simp [fmtDateTime, List.append_assoc]

/-- Parsing undoes formatting for every time RFC 3339 can express. -/
theorem parseRFC3339_formatRFC3339Nano (t : Time) (h : t.Valid) :
    parseRFC3339 (formatRFC3339Nano t) = some t := by
  obtain ⟨hy, hm1, hm2, hd1, hd2, hh, hmi, hs, hn, ho1, ho2⟩ := h
  have hdays := daysIn_le t.month t.year
  have hF := parseFrac_fmtFrac t.nsec t.offset hn
  have hZ := parseZone_fmtZone t.offset ho1 ho2
  have hcond : 1 ≤ t.month ∧ t.month ≤ 12 ∧ t.hour < 24 ∧ t.minute < 60 ∧ t.second < 60 ∧
      1 ≤ t.day ∧ t.day ≤ daysIn t.month t.year := ⟨hm1, hm2, hh, hmi, hs, hd1, hd2⟩
  unfold formatRFC3339Nano parseRFC3339
  rw [fmtDateTime_append, getyear_fmt4 _ _ hy]
  simp only [Option.some_bind, skip_cons, getnum_fmt2 t.month _ _ (by omega),
    getnum_fmt2 t.day _ _ (by omega), getnum_fmt2 t.hour _ _ (by omega),
    getnum_fmt2 t.minute _ _ (by omega), getnum_fmt2 t.second _ _ (by omega), hF, hZ,
    if_pos hcond]

theorem scanString_plain (s rest : Str) (h : ∀ c ∈ s, plainChar c) :
    scanString (s ++ '"' :: rest) = some (s, rest) := by
  induction s with
  | nil => rw [List.nil_append, scanString.eq_def]; simp
  | cons c cs ih =>
    obtain ⟨h1, h2, h3⟩ := h c (List.mem_cons_self _ _)
    rw [List.cons_append, scan_plain c _ h1 h2 h3, ih (fun x hx => h x (List.mem_cons_of_mem _ hx))]
    rfl

theorem plainChar_of_isDigit (c : Char) (h : isDigit c = true) : plainChar c := by
  simp only [isDigit, Bool.and_eq_true, decide_eq_true_eq] at h
  refine ⟨?_, ?_, by omega⟩
  · intro hc; subst hc; revert h; decide
  · intro hc; subst hc; revert h; decide

theorem plainChar_digitChar (d : Nat) : plainChar (digitChar (d % 10)) :=
  plainChar_of_isDigit _ (isDigit_digitChar _ (Nat.mod_lt _ (by decide)))

theorem plain_fmtZone (off : Int) : ∀ c ∈ fmtZone off, plainChar c := by
  intro c hc
  unfold fmtZone at hc
  split at hc
  · simp only [List.mem_singleton] at hc; subst hc; exact ⟨by decide, by decide, by decide⟩
  · simp only [fmt2, List.cons_append, List.nil_append, List.mem_cons, List.mem_singleton,
      List.not_mem_nil, or_false] at hc
    rcases hc with h | h | h | h | h | h
    · subst h; split <;> exact ⟨by decide, by decide, by decide⟩
    · subst h; exact plainChar_digitChar _
    · subst h; exact plainChar_digitChar _
    · subst h; exact ⟨by decide, by decide, by decide⟩
    · subst h; exact plainChar_digitChar _
    · subst h; exact plainChar_digitChar _

theorem plain_fmtFrac (n : Nat) : ∀ c ∈ fmtFrac n, plainChar c := by
  intro c hc
  unfold fmtFrac at hc
  split at hc
  · simp at hc
  · rcases List.mem_cons.mp hc with h | h
    · subst h; exact ⟨by decide, by decide, by decide⟩
    · obtain ⟨k, hk⟩ := dropTrailingZeros_split (fmt9 n)
      apply plainChar_of_isDigit
      apply mem_fmt9_isDigit n
      rw [hk]
      exact List.mem_append_left _ h

theorem plain_fmtDateTime (t : Time) : ∀ c ∈ fmtDateTime t, plainChar c := by
  intro c hc
  simp only [fmtDateTime, fmt4, fmt2, List.cons_append, List.nil_append, List.mem_cons,
    List.mem_singleton, List.not_mem_nil, or_false] at hc
  rcases hc with h | h | h | h | h | h | h | h | h | h | h | h | h | h | h | h | h | h | h <;>
    first
    | (subst h; exact plainChar_digitChar _)
    | (subst h; exact ⟨by decide, by decide, by decide⟩)

theorem scanString_formatRFC3339Nano (t : Time) (rest : Str) :
    scanString (formatRFC3339Nano t ++ '"' :: rest) = some (formatRFC3339Nano t, rest) := by
  apply scanString_plain
  intro c hc
  unfold formatRFC3339Nano at hc
  rcases List.mem_append.mp hc with h | h
  · exact plain_fmtDateTime t c h
  · rcases List.mem_append.mp h with h | h
    · exact plain_fmtFrac _ c h
    · exact plain_fmtZone _ c h

end GoLib

/-! ## Messages survive encoding and decoding -/

namespace GoLib

theorem quote_append (s rest : Str) : quote s ++ rest = '"' :: (escape s ++ '"' :: rest) := by
  simp [quote]

theorem skipWS_cons (c : Char) (t : Str) (h : isSpace c = false) : skipWS (c :: t) = c :: t := by
  simp [skipWS, List.dropWhile, h]

theorem parseValue_quote (k d : Nat) (s rest : Str) :
    parseValue (k + 1) d (quote s ++ rest) = some (Json.str (escape s), rest) := by
  rw [quote_append, parseValue, skipWS_cons _ _ (by decide)]
  simp [scanString_escape]

theorem parseValue_time (k d : Nat) (t : Time) (rest : Str) :
    parseValue (k + 1) d ('"' :: (formatRFC3339Nano t ++ ['"']) ++ rest) =
      some (Json.str (formatRFC3339Nano t), rest) := by
  rw [parseValue, List.cons_append, skipWS_cons _ _ (by decide)]
  simp [scanString_formatRFC3339Nano]

theorem parseMembers_comma (k d : Nat) (key vt more : Str) (v : Json)
    (hv : parseValue k d (vt ++ ',' :: more) = some (v, ',' :: more)) :
    parseMembers (k + 1) d (quote key ++ ':' :: (vt ++ ',' :: more)) =
      (parseMembers k d more).map (fun p => ((escape key, v) :: p.1, p.2)) := by
  rw [quote_append, parseMembers, skipWS_cons _ _ (by decide)]
  simp only [if_true, scanString_escape]
  rw [skipWS_cons _ _ (by decide)]
  simp only [if_true, hv]
  rw [skipWS_cons _ _ (by decide)]
  simp

theorem parseMembers_end (k d : Nat) (key vt more : Str) (v : Json)
    (hv : parseValue k d (vt ++ '}' :: more) = some (v, '}' :: more)) :
    parseMembers (k + 1) d (quote key ++ ':' :: (vt ++ '}' :: more)) =
      some ([(escape key, v)], more) := by
  rw [quote_append, parseMembers, skipWS_cons _ _ (by decide)]
  simp only [if_true, scanString_escape]
  rw [skipWS_cons _ _ (by decide)]
  simp only [if_true, hv]
  rw [skipWS_cons _ _ (by decide)]
  simp

/-- What `json.Marshal` writes for a message whose timestamp RFC 3339 can express. -/
theorem marshalMessage_eq (m : Message) (h : m.Timestamp.Valid) :
    marshalMessage m = some (messageText m) := by
  unfold marshalMessage
  rw [marshalJSON_of_valid _ h]
  rfl

theorem messageText_nested (m : Message) (rest : Str) :
    messageText m ++ rest =
      '{' :: (quote ['i', 'd'] ++ ':' :: (quote m.ID ++ ',' ::
        (quote ['c', 'o', 'n', 't', 'e', 'n', 't'] ++ ':' :: (quote m.Content ++ ',' ::
        (quote ['t', 'i', 'm', 'e', 's', 't', 'a', 'm', 'p'] ++ ':' ::
          (('"' :: (formatRFC3339Nano m.Timestamp ++ ['"'])) ++ '}' :: rest)))))) := by
  simp [messageText, List.append_assoc]

theorem parseValue_messageText (k d : Nat) (m : Message) (rest : Str) :
    parseValue (k + 5) (d + 1) (messageText m ++ rest) = some (messageJson m, rest) := by
  have h3 : parseMembers (k + 2) d _ = _ :=
    parseMembers_end (k + 1) d ['t', 'i', 'm', 'e', 's', 't', 'a', 'm', 'p']
      ('"' :: (formatRFC3339Nano m.Timestamp ++ ['"'])) rest
      (Json.str (formatRFC3339Nano m.Timestamp)) (parseValue_time k d m.Timestamp _)
  have h2 : parseMembers (k + 3) d _ = _ :=
    parseMembers_comma (k + 2) d ['c', 'o', 'n', 't', 'e', 'n', 't'] (quote m.Content)
      (quote ['t', 'i', 'm', 'e', 's', 't', 'a', 'm', 'p'] ++ ':' ::
        (('"' :: (formatRFC3339Nano m.Timestamp ++ ['"'])) ++ '}' :: rest))
      (Json.str (escape m.Content)) (parseValue_quote (k + 1) d _ _)
  have h1 : parseMembers (k + 4) d _ = _ :=
    parseMembers_comma (k + 3) d ['i', 'd'] (quote m.ID)
      (quote ['c', 'o', 'n', 't', 'e', 'n', 't'] ++ ':' :: (quote m.Content ++ ',' ::
        (quote ['t', 'i', 'm', 'e', 's', 't', 'a', 'm', 'p'] ++ ':' ::
          (('"' :: (formatRFC3339Nano m.Timestamp ++ ['"'])) ++ '}' :: rest))))
      (Json.str (escape m.ID)) (parseValue_quote (k + 2) d _ _)
  rw [h2, h3] at h1
  rw [messageText_nested, parseValue, skipWS_cons _ _ (by decide)]
  dsimp only
  rw [if_neg (by decide), if_pos rfl, if_neg (Nat.succ_ne_zero d), Nat.add_sub_cancel, h1,
    quote_append, skipWS_cons _ _ (by decide)]
  dsimp only
  rw [if_neg (by decide)]
  rfl

theorem unmarshalMessage_messageJson (m : Message) (h : m.Timestamp.Valid) :
    unmarshalMessage Message.zero (messageJson m) = some m := by
  have hid : (['i', 'd'] : Str).map foldChar = ['I', 'D'] := by decide
  have hc : (['c', 'o', 'n', 't', 'e', 'n', 't'] : Str).map foldChar =
      ['C', 'O', 'N', 'T', 'E', 'N', 'T'] := by decide
  have ht : (['t', 'i', 'm', 'e', 's', 't', 'a', 'm', 'p'] : Str).map foldChar =
      ['T', 'I', 'M', 'E', 'S', 'T', 'A', 'M', 'P'] := by decide
  have hc1 : (['C', 'O', 'N', 'T', 'E', 'N', 'T'] : Str) ≠ ['I', 'D'] := by decide
  have ht1 : (['T', 'I', 'M', 'E', 'S', 'T', 'A', 'M', 'P'] : Str) ≠ ['I', 'D'] := by decide
  have ht2 : (['T', 'I', 'M', 'E', 'S', 'T', 'A', 'M', 'P'] : Str) ≠
      ['C', 'O', 'N', 'T', 'E', 'N', 'T'] := by decide
  have hp := parseRFC3339_formatRFC3339Nano m.Timestamp h
  simp only [unmarshalMessage, messageJson, Message.setFields, unquote_escape, Message.setField,
    hid, hc, ht, if_true, if_neg hc1, if_neg ht1, if_neg ht2, unmarshalString, unmarshalTime,
    Time.UnmarshalJSON, hp, Option.map_some']

theorem marshalElems_eq (l : List Message) (h : ∀ m ∈ l, m.Timestamp.Valid) :
    marshalElems l = some (elemsText l) := by
  induction l with
  | nil => rfl
  | cons m ms ih =>
    have hm := marshalMessage_eq m (h m (List.mem_cons_self _ _))
    have hms := ih (fun x hx => h x (List.mem_cons_of_mem _ hx))
    cases ms with
    | nil => simpa [marshalElems, elemsText] using hm
    | cons m2 ms2 => simp [marshalElems, elemsText, hm, hms]

theorem parseElems_elemsText (l : List Message) (hl : l ≠ []) (f d : Nat)
    (hf : l.length + 5 ≤ f) (rest : Str) :
    parseElems f (d + 1) (elemsText l ++ ']' :: rest) = some (l.map messageJson, rest) := by
  induction l generalizing f with
  | nil => exact absurd rfl hl
  | cons m ms ih =>
    obtain ⟨k, rfl⟩ : ∃ k, f = (k + 5) + 1 := ⟨f - 6, by simp at hf; omega⟩
    cases ms with
    | nil =>
      rw [parseElems]
      simp only [elemsText]
      rw [parseValue_messageText]
      dsimp only
      rw [skipWS_cons _ _ (by decide)]
      dsimp only
      rw [if_neg (by decide), if_pos rfl]
      rfl
    | cons m2 ms2 =>
      have ih2 := ih (List.cons_ne_nil _ _) (k + 5) (by simp at hf ⊢; omega)
      rw [parseElems]
      simp only [elemsText, List.append_assoc, List.cons_append]
      rw [parseValue_messageText]
      dsimp only
      rw [skipWS_cons _ _ (by decide)]
      dsimp only
      rw [if_pos rfl]
      simp only [elemsText] at ih2
      rw [ih2]
      rfl

theorem unmarshalElems_messageJson (l : List Message) (h : ∀ m ∈ l, m.Timestamp.Valid) :
    unmarshalElems (l.map messageJson) = some l := by
  induction l with
  | nil => rfl
  | cons m ms ih =>
    simp only [List.map_cons, unmarshalElems,
      unmarshalMessage_messageJson m (h m (List.mem_cons_self _ _)),
      ih (fun x hx => h x (List.mem_cons_of_mem _ hx))]

theorem messageText_length (m : Message) : 2 ≤ (messageText m).length := by
  simp [messageText]
  omega

theorem elemsText_length (l : List Message) : l.length ≤ (elemsText l).length := by
  induction l with
  | nil => simp
  | cons m ms ih =>
    have := messageText_length m
    cases ms with
    | nil => simp [elemsText]; omega
    | cons m2 ms2 =>
      simp only [elemsText, List.length_append, List.length_cons] at ih ⊢
      omega

theorem maxNestingDepth_succ : maxNestingDepth = 9999 + 1 := rfl

/-- Decoding the JSON text of a message gives the message back, whatever follows the text. -/
theorem decodeMessage_messageText (m : Message) (rest : Str) (h : m.Timestamp.Valid) :
    decodeMessage (messageText m ++ rest) = some m := by
  have hlen := messageText_length m
  obtain ⟨k, hk⟩ : ∃ k, 2 * (messageText m ++ rest).length + 2 = k + 5 :=
    ⟨2 * (messageText m ++ rest).length + 2 - 5, by simp; omega⟩
  simp only [decodeMessage, scanValue, hk, maxNestingDepth_succ, parseValue_messageText,
    Option.map_some', unmarshalMessage_messageJson m h]

/-- Decoding undoes encoding for a message whose timestamp can be written. -/
theorem decodeMessage_encode (m : Message) (h : m.Timestamp.Valid) :
    decodeMessage (encodeBody (marshalMessage m)) = some m := by
  rw [marshalMessage_eq m h]
  exact decodeMessage_messageText m ['\n'] h

/-- Decoding undoes encoding for a slice whose timestamps can be written; the nil slice comes
back nil. -/
theorem decodeSlice_encode (s : Slice) (h : ∀ m ∈ Slice.toList s, m.Timestamp.Valid) :
    decodeSlice (encodeBody (marshalSlice s)) = some s := by
  cases s with
  | none => decide
  | some l =>
    cases l with
    | nil => decide
    | cons m ms =>
      have hl := elemsText_length (m :: ms)
      simp only [Slice.toList] at h
      simp only [marshalSlice, marshalElems_eq (m :: ms) h, Option.map_some', encodeBody,
        decodeSlice, scanValue]
      obtain ⟨k, hk⟩ : ∃ k, 2 * ('[' :: (elemsText (m :: ms) ++ [']']) ++ ['\n']).length + 2 =
          k + 1 := ⟨_, rfl⟩
      have hk2 : (m :: ms).length + 5 ≤ k := by
        simp only [List.length_cons, List.length_append, List.length_singleton] at hk hl ⊢
        omega
      have hp := parseElems_elemsText (m :: ms) (List.cons_ne_nil _ _) k 9998 hk2 ['\n']
      have hne : ∃ c t, elemsText (m :: ms) ++ [']'] ++ ['\n'] = c :: t ∧ c = '{' := by
        cases ms with
        | nil => exact ⟨'{', _, rfl, rfl⟩
        | cons m2 ms2 => exact ⟨'{', _, rfl, rfl⟩
      obtain ⟨c, t, hct, hc⟩ := hne
      rw [hk, maxNestingDepth_succ, parseValue, List.cons_append, skipWS_cons _ _ (by decide)]
      dsimp only
      rw [if_neg (by decide), if_neg (by decide), if_pos rfl, if_neg (Nat.succ_ne_zero _),
        Nat.add_sub_cancel, hct, hc, skipWS_cons _ _ (by decide)]
      dsimp only
      rw [if_neg (by decide), ← hc, ← hct, List.append_assoc, List.singleton_append, hp]
      have hu := unmarshalElems_messageJson (m :: ms) h
      simp only [Option.map_some', unmarshalSlice, hu]

end GoLib

/-! ## What decoded timestamps look like -/

namespace GoLib

theorem digitVal_lt (c : Char) (h : isDigit c = true) : digitVal c < 10 := by
  simp only [isDigit, Bool.and_eq_true, decide_eq_true_eq] at h
  unfold digitVal
  omega

theorem digitsVal_lt (l : Str) (h : ∀ c ∈ l, isDigit c = true) : digitsVal l < 10 ^ l.length := by
  induction l using List.reverseRecOn with
  | nil => simp [digitsVal]
  | append_singleton xs c ih =>
    have h1 := ih (fun x hx => h x (List.mem_append_left _ hx))
    have h2 := digitVal_lt c (h c (by simp))
    rw [digitsVal_append_single, List.length_append, List.length_singleton, pow_succ]
    omega

theorem parseNanoseconds_lt (ds : Str) (h : ∀ c ∈ ds, isDigit c = true) :
    parseNanoseconds ds < 1000000000 := by
  unfold parseNanoseconds
  have h1 := digitsVal_lt (ds.take 9) (fun c hc => h c (List.mem_of_mem_take hc))
  have h2 : (ds.take 9).length ≤ 9 := by simp
  have h3 : 10 ^ (ds.take 9).length * 10 ^ (9 - (ds.take 9).length) = 1000000000 := by
    rw [← pow_add]
    have : (ds.take 9).length + (9 - (ds.take 9).length) = 9 := by omega
    rw [this]
    norm_num
  calc digitsVal (ds.take 9) * 10 ^ (9 - (ds.take 9).length)
      < 10 ^ (ds.take 9).length * 10 ^ (9 - (ds.take 9).length) :=
        Nat.mul_lt_mul_of_pos_right h1 (by positivity)
    _ = 1000000000 := h3

theorem parseFrac_lt (rest : Str) : (parseFrac rest).1 < 1000000000 := by
  unfold parseFrac
  split
  · next c d more =>
    split
    · next hcd =>
      apply parseNanoseconds_lt
      intro x hx
      rcases List.mem_cons.mp hx with hx | hx
      · subst hx; exact hcd.2
      · exact (List.mem_takeWhile_imp hx)
    · exact Nat.zero_lt_succ _
  · exact Nat.zero_lt_succ _

theorem getnum_lt (s : Str) (fixed : Bool) (n : Nat) (r : Str)
    (h : getnum s fixed = some (n, r)) : n < 100 := by
  unfold getnum at h
  split at h
  · cases h
  · next a rest =>
    split at h
    · next ha =>
      have := digitVal_lt a ha
      split at h
      · split at h
        · cases h
        · simp only [Option.some.injEq, Prod.mk.injEq] at h; omega
      · next b rest2 =>
        split at h
        · next hb =>
          have := digitVal_lt b hb
          simp only [Option.some.injEq, Prod.mk.injEq] at h; omega
        · split at h
          · cases h
          · simp only [Option.some.injEq, Prod.mk.injEq] at h; omega
    · cases h

theorem getyear_le (s : Str) (n : Nat) (r : Str) (h : getyear s = some (n, r)) : n ≤ 9999 := by
  unfold getyear at h
  split at h
  · next y1 y2 y3 y4 rest =>
    split at h
    · next hd =>
      simp only [Option.some.injEq, Prod.mk.injEq] at h
      have := digitsVal_lt [y1, y2, y3, y4] (by
        intro c hc
        simp only [List.mem_cons, List.mem_singleton, List.not_mem_nil, or_false] at hc
        rcases hc with hc | hc | hc | hc <;> (subst hc; simp [hd.1, hd.2.1, hd.2.2.1, hd.2.2.2]))
      simp only [List.length_cons, List.length_nil] at this
      omega
    · cases h
  · cases h

theorem parseZone_bounds (s : Str) (off : Int) (h : parseZone s = some off) :
    -1500 ≤ off ∧ off ≤ 1500 := by
  unfold parseZone at h
  split at h
  · simp only [Option.some.injEq] at h; subst h; decide
  · next sg h1 h2 c m1 m2 =>
    split at h
    · next hr r1 mm r2 hh hm =>
      split at h
      · next hcond =>
        simp only [Option.some.injEq] at h
        subst h
        obtain ⟨_, _, hb1, hb2⟩ := hcond
        split <;> omega
      · cases h
    · cases h
  · cases h

/-- A time that parsing gives is a real date and time of day, with a zone offset of up to 25
hours. -/
theorem parseRFC3339_parsed (s : Str) (t : Time) (h : parseRFC3339 s = some t) : t.Parsed := by
  unfold parseRFC3339 at h
  obtain ⟨⟨year, s1⟩, hy, h⟩ := Option.bind_eq_some.mp h
  obtain ⟨s2, _, h⟩ := Option.bind_eq_some.mp h
  obtain ⟨⟨month, s3⟩, _, h⟩ := Option.bind_eq_some.mp h
  obtain ⟨s4, _, h⟩ := Option.bind_eq_some.mp h
  obtain ⟨⟨day, s5⟩, _, h⟩ := Option.bind_eq_some.mp h
  obtain ⟨s6, _, h⟩ := Option.bind_eq_some.mp h
  obtain ⟨⟨hour, s7⟩, _, h⟩ := Option.bind_eq_some.mp h
  obtain ⟨s8, _, h⟩ := Option.bind_eq_some.mp h
  obtain ⟨⟨minute, s9⟩, _, h⟩ := Option.bind_eq_some.mp h
  obtain ⟨s10, _, h⟩ := Option.bind_eq_some.mp h
  obtain ⟨⟨sec, s11⟩, _, h⟩ := Option.bind_eq_some.mp h
  obtain ⟨offset, hz, h⟩ := Option.bind_eq_some.mp h
  split at h
  · next hcond =>
    simp only [Option.some.injEq] at h
    subst h
    have b1 := getyear_le _ _ _ hy
    have b2 := parseZone_bounds _ _ hz
    have b3 := parseFrac_lt s11
    obtain ⟨c1, c2, c3, c4, c5, c6, c7⟩ := hcond
    exact ⟨b1, c1, c2, c6, c7, c3, c4, c5, b3, b2.1, b2.2⟩
  · cases h

theorem zero_parsed : Time.zero.Parsed := by decide

theorem setField_parsed (m m2 : Message) (key : Str) (v : Json) (hm : m.Timestamp.Parsed)
    (h : Message.setField m key v = some m2) : m2.Timestamp.Parsed := by
  unfold Message.setField at h
  split at h
  · obtain ⟨x, _, hx⟩ := Option.map_eq_some'.mp h
    subst hx; exact hm
  · split at h
    · obtain ⟨x, _, hx⟩ := Option.map_eq_some'.mp h
      subst hx; exact hm
    · split at h
      · obtain ⟨x, hu, hx⟩ := Option.map_eq_some'.mp h
        subst hx
        unfold unmarshalTime at hu
        split at hu
        · simp only [Option.some.injEq] at hu; subst hu; exact hm
        · exact parseRFC3339_parsed _ _ hu
        · cases hu
      · simp only [Option.some.injEq] at h; subst h; exact hm

theorem setFields_parsed (kvs : List (Str × Json)) (m m2 : Message) (hm : m.Timestamp.Parsed)
    (h : Message.setFields m kvs = some m2) : m2.Timestamp.Parsed := by
  induction kvs generalizing m with
  | nil => simp only [Message.setFields, Option.some.injEq] at h; subst h; exact hm
  | cons kv kvs ih =>
    obtain ⟨k, v⟩ := kv
    simp only [Message.setFields] at h
    split at h
    · cases h
    · next m3 h3 => exact ih m3 (setField_parsed m m3 _ v hm h3) h

/-- A message decoded from JSON has a timestamp that is a real date and time of day. -/
theorem decodeMessage_parsed (body : Str) (m : Message) (h : decodeMessage body = some m) :
    m.Timestamp.Parsed := by
  unfold decodeMessage at h
  split at h
  · cases h
  · next v _ =>
    unfold unmarshalMessage at h
    split at h
    · simp only [Option.some.injEq] at h; subst h; exact zero_parsed
    · exact setFields_parsed _ _ _ zero_parsed h
    · cases h

/-- A parsed time that `Time.MarshalJSON` writes is a time RFC 3339 can express. -/
theorem valid_of_parsed (t : Time) (js : Str) (hp : t.Parsed) (h : t.MarshalJSON = some js) :
    t.Valid := by
  obtain ⟨h1, h2, h3, h4, h5, h6, h7, h8, h9, h10, h11⟩ := hp
  unfold Time.MarshalJSON at h
  split at h
  · cases h
  · split at h
    · cases h
    · next hz => exact ⟨h1, h2, h3, h4, h5, h6, h7, h8, h9, by omega, by omega⟩

/-- A decoded message that `json.Marshal` writes has a timestamp RFC 3339 can express. -/
theorem decodeMessage_valid (body jsonData : Str) (m : Message)
    (h : decodeMessage body = some m) (hj : marshalMessage m = some jsonData) :
    m.Timestamp.Valid := by
  unfold marshalMessage at hj
  split at hj
  · cases hj
  · next ts hts => exact valid_of_parsed _ ts (decodeMessage_parsed body m h) hts

/-- Whether `json.Marshal` can write a message depends on its timestamp alone. -/
theorem marshalMessage_isSome (m : Message) :
    (marshalMessage m).isSome = m.Timestamp.MarshalJSON.isSome := by
  unfold marshalMessage
  cases m.Timestamp.MarshalJSON <;> rfl

end GoLib

namespace GoLib

/-- A parsed time whose zone offset is under 24 hours is a time RFC 3339 can express. -/
theorem valid_of_parsed_offset (t : Time) (hp : t.Parsed) (h : t.offset.natAbs < 1440) :
    t.Valid := by
  obtain ⟨h1, h2, h3, h4, h5, h6, h7, h8, h9, _, _⟩ := hp
  exact ⟨h1, h2, h3, h4, h5, h6, h7, h8, h9, by omega, by omega⟩

/-- A message whose timestamp has a zone offset of 24 hours or more cannot be written. -/
theorem marshalMessage_none_of_offset (m : Message) (h : 1440 ≤ m.Timestamp.offset.natAbs) :
    marshalMessage m = none := by
  have h2 : 24 ≤ m.Timestamp.offset.natAbs / 60 := by omega
  unfold marshalMessage Time.MarshalJSON
  by_cases hy : 10000 ≤ m.Timestamp.year
  · rw [if_pos hy]
  · rw [if_neg hy, if_pos h2]

/-- A body from which no amount of fuel scans a value does not decode. -/
theorem decodeMessage_none_of_parseValue (s : Str)
    (h : ∀ f, parseValue f maxNestingDepth s = none) : decodeMessage s = none := by
  unfold decodeMessage scanValue
  rw [h]
  rfl

/-- A body that opens more than 10000 nested arrays (`maxNestingDepth`) does not decode. -/
theorem decodeMessage_too_deep (rest : Str) :
    decodeMessage (List.replicate (maxNestingDepth + 1) '[' ++ rest) = none :=
  decodeMessage_none_of_parseValue _ (fun f => parseValue_too_deep maxNestingDepth f rest)

end GoLib

namespace Producer

theorem post_ne_get : "POST".toList ≠ "GET".toList := by decide

theorem handleMessages_post_ok (txt : ErrorText) (L : Slice) (body : Str) (msg : Message)
    (t1 t2 : Time) (hdec : decodeMessage body = some msg) :
    handleMessages txt L ⟨"POST".toList, body⟩ t1 t2 =
      (some (Slice.toList L ++ [⟨formatInt t1.UnixNano, msg.Content, t2⟩]),
        ⟨201, "application/json".toList,
          encodeBody (marshalMessage ⟨formatInt t1.UnixNano, msg.Content, t2⟩)⟩) := by
  simp [handleMessages, post_ne_get, hdec, Slice.append]

theorem handleMessages_post_error (txt : ErrorText) (L : Slice) (body : Str) (t1 t2 : Time)
    (hdec : decodeMessage body = none) :
    handleMessages txt L ⟨"POST".toList, body⟩ t1 t2 =
      (L, httpError (txt.decodeMessage body) 400) := by
  simp [handleMessages, post_ne_get, hdec]

theorem handleMessages_get (txt : ErrorText) (L : Slice) (body : Str) (t1 t2 : Time) :
    handleMessages txt L ⟨"GET".toList, body⟩ t1 t2 =
      (L, ⟨200, "application/json".toList, encodeBody (marshalSlice L)⟩) := by
  simp [handleMessages]

theorem handleMessages_other (txt : ErrorText) (L : Slice) (r : Request) (t1 t2 : Time)
    (hg : r.Method ≠ "GET".toList) (hp : r.Method ≠ "POST".toList) :
    handleMessages txt L r t1 t2 = (L, ⟨405, "application/json".toList, []⟩) := by
  unfold handleMessages
  rw [if_neg hg, if_neg hp]

/-- Every request leaves the stored messages as a prefix of the new slice. -/
theorem handleMessages_keeps (txt : ErrorText) (L : Slice) (r : Request) (t1 t2 : Time) :
    Slice.toList L <+: Slice.toList (handleMessages txt L r t1 t2).1 := by
  unfold handleMessages
  split
  · exact List.prefix_refl _
  · split
    · split
      · exact List.prefix_refl _
      · simp [Slice.append, Slice.toList]
    · exact List.prefix_refl _

theorem run_keeps (txt : ErrorText) (L : Slice) (es : List Event) :
    Slice.toList L <+: Slice.toList (run txt L es) := by
  induction es generalizing L with
  | nil => exact List.prefix_refl _
  | cons e es ih => exact (handleMessages_keeps txt L e.req e.t1 e.t2).trans (ih _)

/-- Once a message is stored the slice is not nil, and the body of GET `/messages` is a JSON
array: an opening bracket, the messages in insertion order separated by commas, a closing bracket
and a newline. -/
theorem handleMessages_get_array (txt : ErrorText) (l : List Message) (b : Str) (t1 t2 : Time)
    (h : ∀ m ∈ l, m.Timestamp.Valid) :
    (handleMessages txt (some l) ⟨"GET".toList, b⟩ t1 t2).2.Body =
      '[' :: (elemsText l ++ [']']) ++ ['\n'] := by
  rw [handleMessages_get]
  simp only [marshalSlice, marshalElems_eq l h, Option.map_some', encodeBody]

/-- A POST whose timestamp has a one-digit hour, a comma before the fraction and a zone offset
of 24 hours is decodable: it is answered 201 and stored. -/
theorem handleMessages_loose_sample :
    handleMessages Sample.texts none ⟨"POST".toList, Sample.looseBody⟩ Sample.clock1
        Sample.clock2 =
      (some [⟨"1709251200000005000".toList, "hi".toList, Sample.clock2⟩],
        ⟨201, "application/json".toList,
          ("\x7b\"id\":\"1709251200000005000\",\"content\":\"hi\"," ++
            "\"timestamp\":\"2024-03-01T05:30:00.000007+05:30\"\x7d\n").toList⟩) := by
  decide

theorem ids_handleMessages (txt : ErrorText) (L : Slice) (e : Event) :
    ids (handleMessages txt L e.req e.t1 e.t2).1 =
      ids L ++ (if creates e then [formatInt e.t1.UnixNano] else []) := by
  unfold handleMessages creates
  by_cases hg : e.req.Method = "GET".toList
  · have hp : e.req.Method ≠ ['P', 'O', 'S', 'T'] := by rw [hg]; decide
    rw [if_pos hg]
    simp [hp]
  · rw [if_neg hg]
    by_cases hp : e.req.Method = "POST".toList
    · rw [if_pos hp]
      cases hd : decodeMessage e.req.Body with
      | none => simp [hp]
      | some msg => simp [hp, ids, Slice.append, Slice.toList]
    · rw [if_neg hp]
      have hp2 : e.req.Method ≠ ['P', 'O', 'S', 'T'] := hp
      simp [hp2]

theorem ids_run (txt : ErrorText) (L : Slice) (es : List Event) :
    ids (run txt L es) =
      ids L ++ (es.filter creates).map (fun e => formatInt e.t1.UnixNano) := by
  induction es generalizing L with
  | nil => simp [run]
  | cons e es ih =>
    rw [run, ih, ids_handleMessages]
    by_cases hc : creates e = true
    · simp [hc, List.filter_cons]
    · simp [hc, List.filter_cons]

/-- Every message the producer holds after handling requests under clock readings that RFC 3339
can express has a timestamp that can be written. -/
theorem run_valid (txt : ErrorText) (L : Slice) (es : List Event)
    (hL : ∀ m ∈ Slice.toList L, m.Timestamp.Valid) (hes : ∀ e ∈ es, e.t2.Valid) :
    ∀ m ∈ Slice.toList (run txt L es), m.Timestamp.Valid := by
  induction es generalizing L with
  | nil => exact hL
  | cons e es ih =>
    apply ih _ _ (fun x hx => hes x (List.mem_cons_of_mem _ hx))
    intro m hm
    unfold handleMessages at hm
    split at hm
    · exact hL m hm
    · split at hm
      · split at hm
        · exact hL m hm
        · simp only [Slice.append, Slice.toList, List.mem_append, List.mem_singleton] at hm
          rcases hm with hm | hm
          · exact hL m hm
          · subst hm; exact hes e (List.mem_cons_self _ _)
      · exact hL m hm

end Producer

namespace Consumer

theorem fetchMessages_down (txt : ErrorText) (net : Net) (producerHost err : Str)
    (h : net ⟨"GET".toList, messagesURL producerHost, []⟩ = .error err) :
    fetchMessages txt net producerHost =
      (.error ("failed to connect to producer service: ".toList ++ err),
        [⟨"GET".toList, messagesURL producerHost, []⟩]) := by
  unfold fetchMessages
  simp only [h]

theorem fetchMessages_status (txt : ErrorText) (net : Net) (producerHost : Str) (resp : Response)
    (h : net ⟨"GET".toList, messagesURL producerHost, []⟩ = .ok resp)
    (hs : resp.StatusCode ≠ 200) :
    fetchMessages txt net producerHost =
      (.error ("producer service returned non-200 status code: ".toList ++
        formatInt resp.StatusCode ++ " - ".toList ++ resp.Body),
        [⟨"GET".toList, messagesURL producerHost, []⟩]) := by
  unfold fetchMessages
  simp only [h, hs, ne_eq, not_false_eq_true, if_true]

theorem createMessage_unwritable (txt : ErrorText) (net : Net) (producerHost : Str)
    (msg : Message) (hj : marshalMessage msg = none) :
    createMessage txt net producerHost msg =
      (.error ("failed to marshal message: ".toList ++ txt.marshalMessage msg), []) := by
  unfold createMessage
  simp only [hj]

theorem createMessage_down (txt : ErrorText) (net : Net) (producerHost err jsonData : Str)
    (msg : Message) (hj : marshalMessage msg = some jsonData)
    (h : net ⟨"POST".toList, messagesURL producerHost, jsonData⟩ = .error err) :
    createMessage txt net producerHost msg =
      (.error ("failed to connect to producer service: ".toList ++ err),
        [⟨"POST".toList, messagesURL producerHost, jsonData⟩]) := by
  unfold createMessage
  simp only [hj, h]

theorem createMessage_status (txt : ErrorText) (net : Net) (producerHost jsonData : Str)
    (msg : Message) (resp : Response) (hj : marshalMessage msg = some jsonData)
    (h : net ⟨"POST".toList, messagesURL producerHost, jsonData⟩ = .ok resp)
    (hs : resp.StatusCode ≠ 201) :
    createMessage txt net producerHost msg =
      (.error ("producer service returned non-201 status code: ".toList ++
        formatInt resp.StatusCode ++ " - ".toList ++ resp.Body),
        [⟨"POST".toList, messagesURL producerHost, jsonData⟩]) := by
  unfold createMessage
  simp only [hj, h, hs, ne_eq, not_false_eq_true, if_true]

theorem createMessage_created (txt : ErrorText) (net : Net) (producerHost jsonData : Str)
    (msg : Message) (resp : Response) (hj : marshalMessage msg = some jsonData)
    (h : net ⟨"POST".toList, messagesURL producerHost, jsonData⟩ = .ok resp)
    (hs : resp.StatusCode = 201) :
    createMessage txt net producerHost msg =
      (match decodeMessage resp.Body with
        | none => .error ("failed to decode response: ".toList ++ txt.decodeMessage resp.Body)
        | some createdMessage => .ok createdMessage,
        [⟨"POST".toList, messagesURL producerHost, jsonData⟩]) := by
  unfold createMessage
  simp only [hj, h, hs, ne_eq, not_true_eq_false, if_false]
  cases decodeMessage resp.Body <;> rfl

theorem handleCreateMessage_post (txt : ErrorText) (net : Net) (producerHost body : Str)
    (msg : Message) (hdec : decodeMessage body = some msg) :
    handleCreateMessage txt net producerHost ⟨"POST".toList, body⟩ =
      (match createMessage txt net producerHost msg with
        | (.error err, sent) => (httpError ("Error creating message: ".toList ++ err) 500, sent)
        | (.ok createdMessage, sent) =>
          (⟨201, "application/json".toList, encodeBody (marshalMessage createdMessage)⟩, sent)) := by
  unfold handleCreateMessage
  rw [if_neg (by simp)]
  simp only [hdec]

/-- What the `/create-message` handler answers when the producer answers 201 with a body that
decodes: 201 and what the encoder writes for the decoded message. -/
theorem handleCreateMessage_created (txt : ErrorText) (net : Net)
    (producerHost body jsonData ct B : Str) (msg m : Message)
    (hdec : decodeMessage body = some msg) (hj : marshalMessage msg = some jsonData)
    (hnet : net ⟨"POST".toList, messagesURL producerHost, jsonData⟩ = .ok ⟨201, ct, B⟩)
    (hB : decodeMessage B = some m) :
    handleCreateMessage txt net producerHost ⟨"POST".toList, body⟩ =
      (⟨201, "application/json".toList, encodeBody (marshalMessage m)⟩,
        [⟨"POST".toList, messagesURL producerHost, jsonData⟩]) := by
  rw [handleCreateMessage_post txt net producerHost body msg hdec,
    createMessage_created txt net producerHost jsonData msg ⟨201, ct, B⟩ hj hnet rfl]
  simp only [hB]

/-- What the `/create-message` handler answers when the producer answers 201 with a body that
does not decode: 500. -/
theorem handleCreateMessage_undecodable (txt : ErrorText) (net : Net)
    (producerHost body jsonData ct B : Str) (msg : Message)
    (hdec : decodeMessage body = some msg) (hj : marshalMessage msg = some jsonData)
    (hnet : net ⟨"POST".toList, messagesURL producerHost, jsonData⟩ = .ok ⟨201, ct, B⟩)
    (hB : decodeMessage B = none) :
    handleCreateMessage txt net producerHost ⟨"POST".toList, body⟩ =
      (httpError ("Error creating message: ".toList ++
          ("failed to decode response: ".toList ++ txt.decodeMessage B)) 500,
        [⟨"POST".toList, messagesURL producerHost, jsonData⟩]) := by
  rw [handleCreateMessage_post txt net producerHost body msg hdec,
    createMessage_created txt net producerHost jsonData msg ⟨201, ct, B⟩ hj hnet rfl]
  simp only [hB]

/-- A producer that answers 201 with a message whose timestamp has a zone offset of 24 hours
makes the consumer answer 201 with an empty body. -/
theorem handleCreateMessage_empty_sample :
    (handleCreateMessage Sample.texts
        (fun _ => .ok ⟨201, "application/json".toList, Sample.looseBody⟩)
        "producer:8080".toList ⟨"POST".toList, Sample.body⟩).1 =
      ⟨201, "application/json".toList, []⟩ := by
  decide

/-- A request whose timestamp has a zone offset of 24 hours decodes, cannot be encoded for the
producer, and gets 500 without a call to the producer. -/
theorem handleCreateMessage_unwritable_sample (txt : ErrorText) (net : Net) :
    decodeMessage Sample.looseBody = some Sample.looseDecoded ∧
    marshalMessage Sample.looseDecoded = none ∧
    handleCreateMessage txt net "producer:8080".toList ⟨"POST".toList, Sample.looseBody⟩ =
      (httpError ("Error creating message: ".toList ++
        ("failed to marshal message: ".toList ++ txt.marshalMessage Sample.looseDecoded)) 500,
        []) := by
  refine ⟨by decide, by decide, ?_⟩
  rw [handleCreateMessage_post txt net _ _ Sample.looseDecoded (by decide),
    createMessage_unwritable txt net _ _ (by decide)]

end Consumer

namespace Deployment

/-- With the producer up, a POST to the consumer's `/create-message` whose body decodes to a
message that can be written stores one message in the producer and hands the producer's 201
response on unchanged. -/
theorem createMessage_relays (txt : ErrorText) (L : Slice) (producerHost body jsonData : Str)
    (msg : Message) (t1 t2 : Time) (hdec : decodeMessage body = some msg)
    (hj : marshalMessage msg = some jsonData) (ht2 : t2.Valid) :
    createMessage txt L producerHost ⟨"POST".toList, body⟩ t1 t2 =
      ((Producer.handleMessages txt L ⟨"POST".toList, jsonData⟩ t1 t2).2,
        some (Slice.toList L ++ [⟨formatInt t1.UnixNano, msg.Content, t2⟩])) ∧
    (Producer.handleMessages txt L ⟨"POST".toList, jsonData⟩ t1 t2).2 =
      ⟨201, "application/json".toList,
        messageText ⟨formatInt t1.UnixNano, msg.Content, t2⟩ ++ ['\n']⟩ := by
  have hv := decodeMessage_valid body jsonData msg hdec hj
  have hje := marshalMessage_eq msg hv
  rw [hj] at hje
  simp only [Option.some.injEq] at hje
  subst hje
  have hd : decodeMessage (messageText msg) = some msg := by
    have := decodeMessage_messageText msg [] hv
    rwa [List.append_nil] at this
  have hp := Producer.handleMessages_post_ok txt L (messageText msg) msg t1 t2 hd
  have hm2 := marshalMessage_eq ⟨formatInt t1.UnixNano, msg.Content, t2⟩ ht2
  have hdm := decodeMessage_encode ⟨formatInt t1.UnixNano, msg.Content, t2⟩ ht2
  have hc := Consumer.handleCreateMessage_created txt (producerNet txt L t1 t2) producerHost body
    (messageText msg) "application/json".toList
    (encodeBody (marshalMessage ⟨formatInt t1.UnixNano, msg.Content, t2⟩)) msg
    ⟨formatInt t1.UnixNano, msg.Content, t2⟩ hdec hj (by simp only [producerNet, hp]) hdm
  constructor
  · unfold createMessage
    rw [hc]
    simp only [deliver, hp]
  · rw [hp, hm2]
    rfl

end Deployment

/-- C1: a POST to the producer's `/messages` whose body decodes (to a message with content
`msg.Content`, whatever its id and timestamp) is answered with 201 and what the encoder writes
for the stored message `m`; `m` has the content of the body, the decimal text of the first clock
reading in nanoseconds as its non-empty id and the second clock reading as its timestamp; the
slice afterwards, which the next GET returns, is the prior list followed by `m`.  What the
encoder writes is the JSON text of `m` and a newline whenever the clock reading `t2` is a time
RFC 3339 can express, and the next GET then writes the array of the prior messages and `m`. -/
theorem C1_post_creates_message (txt : ErrorText) (L : Slice) (body : Str) (msg : Message)
    (t1 t2 : Time) (hdec : decodeMessage body = some msg) :
    ∃ m,
      Producer.handleMessages txt L ⟨"POST".toList, body⟩ t1 t2 =
        (some (Slice.toList L ++ [m]),
          ⟨201, "application/json".toList, encodeBody (marshalMessage m)⟩) ∧
      m.Content = msg.Content ∧ m.ID = formatInt t1.UnixNano ∧ m.ID ≠ [] ∧ m.Timestamp = t2 ∧
      (t2.Valid → encodeBody (marshalMessage m) =
        ['{'] ++ quote "id".toList ++ [':'] ++ quote (formatInt t1.UnixNano) ++ [','] ++
          quote "content".toList ++ [':'] ++ quote msg.Content ++ [','] ++
          quote "timestamp".toList ++ [':'] ++ ('"' :: (formatRFC3339Nano t2 ++ ['"'])) ++
          ['}'] ++ ['\n']) ∧
      (∀ (b : Str) (t3 t4 : Time),
        Producer.handleMessages txt (some (Slice.toList L ++ [m])) ⟨"GET".toList, b⟩ t3 t4 =
          (some (Slice.toList L ++ [m]), ⟨200, "application/json".toList,
            encodeBody (marshalSlice (some (Slice.toList L ++ [m])))⟩)) ∧
      (t2.Valid → (∀ x ∈ Slice.toList L, x.Timestamp.Valid) →
        encodeBody (marshalSlice (some (Slice.toList L ++ [m]))) =
          '[' :: (elemsText (Slice.toList L ++ [m]) ++ [']']) ++ ['\n']) := by
  refine ⟨⟨formatInt t1.UnixNano, msg.Content, t2⟩,
    Producer.handleMessages_post_ok txt L body msg t1 t2 hdec, rfl, rfl, formatInt_ne_nil _, rfl,
    ?_, ?_, ?_⟩
  · intro ht2
    rw [marshalMessage_eq ⟨formatInt t1.UnixNano, msg.Content, t2⟩ ht2]
    rfl
  · intro b t3 t4
    exact Producer.handleMessages_get txt _ b t3 t4
  · intro ht2 hL
    have hall : ∀ x ∈ Slice.toList L ++ [⟨formatInt t1.UnixNano, msg.Content, t2⟩],
        x.Timestamp.Valid := by
      intro x hx
      rcases List.mem_append.mp hx with h | h
      · exact hL x h
      · rw [List.mem_singleton] at h; subst h; exact ht2
    simp only [marshalSlice, marshalElems_eq _ hall, Option.map_some', encodeBody]

/-- C1 on a sample request: a POST whose body carries its own id and timestamp, after one stored
message; the response body is spelled out. -/
theorem C1_post_creates_message_witness :
    decodeMessage Sample.body = some Sample.decoded ∧
    (∃ m,
      Producer.handleMessages Sample.texts (some [Sample.stored]) ⟨"POST".toList, Sample.body⟩
          Sample.clock1 Sample.clock2 =
        (some (Slice.toList (some [Sample.stored]) ++ [m]),
          ⟨201, "application/json".toList, encodeBody (marshalMessage m)⟩) ∧
      m.Content = Sample.decoded.Content ∧ m.ID = formatInt Sample.clock1.UnixNano ∧ m.ID ≠ [] ∧
      m.Timestamp = Sample.clock2 ∧
      (Sample.clock2.Valid → encodeBody (marshalMessage m) =
        ['{'] ++ quote "id".toList ++ [':'] ++ quote (formatInt Sample.clock1.UnixNano) ++
          [','] ++ quote "content".toList ++ [':'] ++ quote Sample.decoded.Content ++ [','] ++
          quote "timestamp".toList ++ [':'] ++
          ('"' :: (formatRFC3339Nano Sample.clock2 ++ ['"'])) ++ ['}'] ++ ['\n']) ∧
      (∀ (b : Str) (t3 t4 : Time),
        Producer.handleMessages Sample.texts (some (Slice.toList (some [Sample.stored]) ++ [m]))
            ⟨"GET".toList, b⟩ t3 t4 =
          (some (Slice.toList (some [Sample.stored]) ++ [m]), ⟨200, "application/json".toList,
            encodeBody (marshalSlice (some (Slice.toList (some [Sample.stored]) ++ [m])))⟩)) ∧
      (Sample.clock2.Valid → (∀ x ∈ Slice.toList (some [Sample.stored]), x.Timestamp.Valid) →
        encodeBody (marshalSlice (some (Slice.toList (some [Sample.stored]) ++ [m]))) =
          '[' :: (elemsText (Slice.toList (some [Sample.stored]) ++ [m]) ++ [']']) ++ ['\n'])) ∧
    Producer.handleMessages Sample.texts (some [Sample.stored]) ⟨"POST".toList, Sample.body⟩
        Sample.clock1 Sample.clock2 =
      (some [Sample.stored,
          ⟨"1709251200000005000".toList, "hi".toList, ⟨2024, 3, 1, 5, 30, 0, 7000, 330⟩⟩],
        ⟨201, "application/json".toList,
          ("\x7b\"id\":\"1709251200000005000\",\"content\":\"hi\"," ++
            "\"timestamp\":\"2024-03-01T05:30:00.000007+05:30\"\x7d\n").toList⟩) :=
  ⟨by decide,
    C1_post_creates_message Sample.texts (some [Sample.stored]) Sample.body Sample.decoded
      Sample.clock1 Sample.clock2 (by decide),
    by decide⟩

/-- C3: a body that does not decode as a message gets 400 from the producer's POST `/messages`,
which keeps its slice as it was, and 400 from the consumer's POST `/create-message`, which makes
no call to the producer, so that the producer's slice is unchanged there too.  The body of the
response is the text of the decoder's error and a newline. -/
theorem C3_malformed_body_rejected (txt : ErrorText) (L : Slice) (body : Str) (t1 t2 : Time)
    (net : Net) (producerHost : Str) (hdec : decodeMessage body = none) :
    Producer.handleMessages txt L ⟨"POST".toList, body⟩ t1 t2 =
      (L, ⟨400, "text/plain; charset=utf-8".toList, txt.decodeMessage body ++ ['\n']⟩) ∧
    Consumer.handleCreateMessage txt net producerHost ⟨"POST".toList, body⟩ =
      (⟨400, "text/plain; charset=utf-8".toList, txt.decodeMessage body ++ ['\n']⟩, []) ∧
    Deployment.createMessage txt L producerHost ⟨"POST".toList, body⟩ t1 t2 =
      (⟨400, "text/plain; charset=utf-8".toList, txt.decodeMessage body ++ ['\n']⟩, L) := by
  refine ⟨Producer.handleMessages_post_error txt L body t1 t2 hdec, ?_, ?_⟩
  · simp [Consumer.handleCreateMessage, hdec, httpError]
  · simp [Deployment.createMessage, Consumer.handleCreateMessage, hdec, Deployment.deliver,
      httpError]

/-- C3 on a sample request: a body that breaks off after the key `content`, for which the
decoder reports `unexpected EOF`. -/
theorem C3_malformed_body_rejected_witness :
    decodeMessage Sample.badBody = none ∧
    Producer.handleMessages Sample.texts (some [Sample.stored]) ⟨"POST".toList, Sample.badBody⟩
        Sample.clock1 Sample.clock2 =
      (some [Sample.stored],
        ⟨400, "text/plain; charset=utf-8".toList, "unexpected EOF\n".toList⟩) ∧
    Consumer.handleCreateMessage Sample.texts Sample.down "producer:8080".toList
        ⟨"POST".toList, Sample.badBody⟩ =
      (⟨400, "text/plain; charset=utf-8".toList, "unexpected EOF\n".toList⟩, []) ∧
    Deployment.createMessage Sample.texts (some [Sample.stored]) "producer:8080".toList
        ⟨"POST".toList, Sample.badBody⟩ Sample.clock1 Sample.clock2 =
      (⟨400, "text/plain; charset=utf-8".toList, "unexpected EOF\n".toList⟩,
        some [Sample.stored]) :=
  ⟨by decide,
    C3_malformed_body_rejected Sample.texts (some [Sample.stored]) Sample.badBody Sample.clock1
      Sample.clock2 Sample.down "producer:8080".toList (by decide)⟩

/-- C6: a request to the consumer's `/create-message` whose method is not POST gets 405 whatever
its body, decodable or not, and no call is made to the producer. -/
theorem C6_method_not_allowed (txt : ErrorText) (net : Net) (producerHost : Str) (r : Request)
    (hm : r.Method ≠ "POST".toList) :
    Consumer.handleCreateMessage txt net producerHost r =
      (httpError "Method not allowed".toList 405, []) ∧
    (Consumer.handleCreateMessage txt net producerHost r).1.StatusCode = 405 ∧
    (Consumer.handleCreateMessage txt net producerHost r).2 = [] := by
  have h : Consumer.handleCreateMessage txt net producerHost r =
      (httpError "Method not allowed".toList 405, []) := by
    unfold Consumer.handleCreateMessage
    rw [if_pos hm]
  exact ⟨h, by rw [h]; rfl, by rw [h]⟩

/-- C6 on a sample request: a GET to `/create-message` with a malformed body. -/
theorem C6_method_not_allowed_witness :
    (⟨"GET".toList, Sample.badBody⟩ : Request).Method ≠ "POST".toList ∧
    Consumer.handleCreateMessage Sample.texts Sample.down "producer:8080".toList
        ⟨"GET".toList, Sample.badBody⟩ =
      (httpError "Method not allowed".toList 405, []) ∧
    (Consumer.handleCreateMessage Sample.texts Sample.down "producer:8080".toList
      ⟨"GET".toList, Sample.badBody⟩).1.StatusCode = 405 ∧
    (Consumer.handleCreateMessage Sample.texts Sample.down "producer:8080".toList
      ⟨"GET".toList, Sample.badBody⟩).2 = [] :=
  ⟨by decide,
    C6_method_not_allowed Sample.texts Sample.down "producer:8080".toList
      ⟨"GET".toList, Sample.badBody⟩ (by decide)⟩

/-- C2 as stated fails: two POSTs that meet the same clock reading are stored under the same
identifier. -/
theorem C2_same_clock_same_id :
    ¬ (Producer.ids (Producer.run Sample.texts Producer.initial
      [Sample.post, Sample.post])).Nodup := by
  decide

/-- C2, amended: when the clock readings (in nanoseconds) met by the POSTs that store a message
are pairwise distinct, no two stored messages share an identifier. -/
theorem C2_distinct_clock_distinct_ids (txt : ErrorText) (es : List Producer.Event)
    (hclock : ((es.filter Producer.creates).map (fun e => e.t1.UnixNano)).Nodup) :
    (Producer.ids (Producer.run txt Producer.initial es)).Nodup := by
  rw [Producer.ids_run]
  have h := List.Nodup.map formatInt_injective hclock
  simpa [Producer.ids, Producer.initial, Slice.toList, List.map_map, Function.comp] using h

/-- C2, amended, on a sample run: two POSTs that meet different clock readings. -/
theorem C2_distinct_clock_distinct_ids_witness :
    (([Sample.post, ⟨⟨"POST".toList, Sample.body⟩, Sample.clock2, Sample.clock2⟩].filter
      Producer.creates).map (fun e => e.t1.UnixNano)).Nodup ∧
    (Producer.ids (Producer.run Sample.texts Producer.initial
      [Sample.post, ⟨⟨"POST".toList, Sample.body⟩, Sample.clock2, Sample.clock2⟩])).Nodup :=
  ⟨by decide, C2_distinct_clock_distinct_ids Sample.texts _ (by decide)⟩

/-- C9: whatever requests the producer's `/messages` handles, the messages held before are a
prefix of those held after; one request appends exactly one message when it is a POST with a
decodable body and leaves the slice as it is otherwise; a method other than GET and POST gets
405. -/
theorem C9_list_only_grows (txt : ErrorText) (L : Slice) :
    (∀ es : List Producer.Event, Slice.toList L <+: Slice.toList (Producer.run txt L es)) ∧
    (∀ (r : Request) (t1 t2 : Time),
      Slice.toList L <+: Slice.toList (Producer.handleMessages txt L r t1 t2).1 ∧
      (∀ msg, r.Method = "POST".toList → decodeMessage r.Body = some msg →
        ∃ m, Slice.toList (Producer.handleMessages txt L r t1 t2).1 = Slice.toList L ++ [m]) ∧
      (r.Method ≠ "POST".toList → (Producer.handleMessages txt L r t1 t2).1 = L) ∧
      (decodeMessage r.Body = none → (Producer.handleMessages txt L r t1 t2).1 = L) ∧
      (r.Method ≠ "GET".toList → r.Method ≠ "POST".toList →
        (Producer.handleMessages txt L r t1 t2).2.StatusCode = 405)) := by
  refine ⟨fun es => Producer.run_keeps txt L es, fun r t1 t2 =>
    ⟨Producer.handleMessages_keeps txt L r t1 t2, ?_, ?_, ?_, ?_⟩⟩
  · intro msg hp hd
    obtain ⟨meth, body⟩ := r
    simp only at hp hd
    subst hp
    rw [Producer.handleMessages_post_ok txt L body msg t1 t2 hd]
    exact ⟨_, rfl⟩
  · intro hp
    unfold Producer.handleMessages
    by_cases hg : r.Method = "GET".toList
    · rw [if_pos hg]
    · rw [if_neg hg, if_neg hp]
  · intro hd
    unfold Producer.handleMessages
    by_cases hg : r.Method = "GET".toList
    · rw [if_pos hg]
    · rw [if_neg hg]
      by_cases hp : r.Method = "POST".toList
      · rw [if_pos hp, hd]
      · rw [if_neg hp]
  · intro hg hp
    rw [Producer.handleMessages_other txt L r t1 t2 hg hp]

/-- C4 fails on the empty store: before any message is posted the slice is nil, and the body of
GET `/messages` is `null`, not a JSON array. -/
theorem C4_empty_store_null (txt : ErrorText) (b : Str) (t1 t2 : Time) :
    Producer.handleMessages txt Producer.initial ⟨"GET".toList, b⟩ t1 t2 =
      (Producer.initial, ⟨200, "application/json".toList, "null\n".toList⟩) := by
  rw [Producer.handleMessages_get]
  rfl

/-- C10 fails for large values: with `CONNECTION_CHECK_INTERVAL=9223372037` the parsed number is
used as it is, the product with `time.Second` wraps to a negative duration, and `NewTicker`
panics. -/
theorem C10_interval_overflow :
    ConsumerV2.checkInterval "9223372037".toList = 9223372037 ∧
    ConsumerV2.tickerInterval "9223372037".toList = -9223372036709551616 ∧
    ∀ signals, ConsumerV2.verifyConnectionPeriodically
      (ConsumerV2.tickerInterval "9223372037".toList) signals =
        .error "non-positive interval for NewTicker".toList := by
  refine ⟨by decide, by decide, fun signals => ?_⟩
  have h : ConsumerV2.tickerInterval "9223372037".toList = -9223372036709551616 := by decide
  rw [h]
  rfl

/-- C5: when the call to the producer fails, or the producer answers GET `/messages` with a
status other than 200 or the POST of a well-formed `/create-message` with a status other than
201, the consumer responds 500; when the producer did answer, the body of the consumer's
response contains the producer's status code and the text of its body.  A well-formed
`/create-message` body whose message cannot be encoded for the producer gets 500 too, without a
call. -/
theorem C5_upstream_failure_gives_500 (txt : ErrorText) (net : Net)
    (producerHost hostname body : Str) (now : Time) (msg : Message)
    (hdec : decodeMessage body = some msg) :
    (∀ err, net ⟨"GET".toList, Consumer.messagesURL producerHost, []⟩ = .error err →
      (Consumer.handleFetchMessages txt net producerHost hostname now).1 =
        ⟨500, "text/plain; charset=utf-8".toList,
          "Error fetching messages: failed to connect to producer service: ".toList ++ err ++
            ['\n']⟩) ∧
    (∀ resp, net ⟨"GET".toList, Consumer.messagesURL producerHost, []⟩ = .ok resp →
      resp.StatusCode ≠ 200 →
      (Consumer.handleFetchMessages txt net producerHost hostname now).1 =
        ⟨500, "text/plain; charset=utf-8".toList,
          "Error fetching messages: producer service returned non-200 status code: ".toList ++
            formatInt resp.StatusCode ++ " - ".toList ++ resp.Body ++ ['\n']⟩) ∧
    (∀ jsonData, marshalMessage msg = some jsonData →
      (∀ err, net ⟨"POST".toList, Consumer.messagesURL producerHost, jsonData⟩ = .error err →
        (Consumer.handleCreateMessage txt net producerHost ⟨"POST".toList, body⟩).1 =
          ⟨500, "text/plain; charset=utf-8".toList,
            "Error creating message: failed to connect to producer service: ".toList ++ err ++
              ['\n']⟩) ∧
      (∀ resp, net ⟨"POST".toList, Consumer.messagesURL producerHost, jsonData⟩ = .ok resp →
        resp.StatusCode ≠ 201 →
        (Consumer.handleCreateMessage txt net producerHost ⟨"POST".toList, body⟩).1 =
          ⟨500, "text/plain; charset=utf-8".toList,
            "Error creating message: producer service returned non-201 status code: ".toList ++
              formatInt resp.StatusCode ++ " - ".toList ++ resp.Body ++ ['\n']⟩)) ∧
    (marshalMessage msg = none →
      Consumer.handleCreateMessage txt net producerHost ⟨"POST".toList, body⟩ =
        (⟨500, "text/plain; charset=utf-8".toList,
          "Error creating message: failed to marshal message: ".toList ++
            txt.marshalMessage msg ++ ['\n']⟩, [])) := by
  refine ⟨?_, ?_, ?_, ?_⟩
  · intro err h
    unfold Consumer.handleFetchMessages
    rw [Consumer.fetchMessages_down txt net producerHost err h]
    simp [httpError]
  · intro resp h hs
    unfold Consumer.handleFetchMessages
    rw [Consumer.fetchMessages_status txt net producerHost resp h hs]
    simp [httpError]
  · intro jsonData hj
    refine ⟨?_, ?_⟩
    · intro err h
      rw [Consumer.handleCreateMessage_post txt net producerHost body msg hdec,
        Consumer.createMessage_down txt net producerHost err jsonData msg hj h]
      simp [httpError]
    · intro resp h hs
      rw [Consumer.handleCreateMessage_post txt net producerHost body msg hdec,
        Consumer.createMessage_status txt net producerHost jsonData msg resp hj h hs]
      simp [httpError]
  · intro hj
    rw [Consumer.handleCreateMessage_post txt net producerHost body msg hdec,
      Consumer.createMessage_unwritable txt net producerHost msg hj]
    simp [httpError]

/-- C5 on a sample network: the producer answers 503 with the body `busy`; both consumer
responses are spelled out. -/
theorem C5_upstream_failure_gives_500_witness :
    decodeMessage Sample.body = some Sample.decoded ∧
    (Consumer.handleFetchMessages Sample.texts Sample.busy "producer:8080".toList
      "consumer-1".toList Sample.clock1).1 =
        ⟨500, "text/plain; charset=utf-8".toList,
          ("Error fetching messages: producer service returned non-200 status code: " ++
            "503 - busy\n").toList⟩ ∧
    (Consumer.handleCreateMessage Sample.texts Sample.busy "producer:8080".toList
      ⟨"POST".toList, Sample.body⟩).1 =
        ⟨500, "text/plain; charset=utf-8".toList,
          ("Error creating message: producer service returned non-201 status code: " ++
            "503 - busy\n").toList⟩ :=
  ⟨by decide,
    ((C5_upstream_failure_gives_500 Sample.texts Sample.busy "producer:8080".toList
      "consumer-1".toList Sample.body Sample.clock1 Sample.decoded (by decide)).2.1
        ⟨503, "text/plain".toList, "busy".toList⟩ rfl (by decide)).trans (by decide),
    (((C5_upstream_failure_gives_500 Sample.texts Sample.busy "producer:8080".toList
      "consumer-1".toList Sample.body Sample.clock1 Sample.decoded (by decide)).2.2.1
        Sample.body (by decide)).2
        ⟨503, "text/plain".toList, "busy".toList⟩ rfl (by decide)).trans (by decide)⟩

/-- C7: when the producer answers GET `/messages` with 200 and the encoding of the list `L` it
holds, `fetchMessages` returns `L` itself (the same messages in the same order, each with its
id, content and timestamp; the nil slice as nil), and the `/fetch-messages` response is the JSON
object whose `messages` member is the encoding of `L`.  The timestamps of `L` are times RFC 3339
can express, as the timestamps of every list the producer builds are. -/
theorem C7_fetch_returns_held_messages (txt : ErrorText) (L : Slice) (net : Net)
    (producerHost hostname ct : Str) (now : Time)
    (hL : ∀ m ∈ Slice.toList L, m.Timestamp.Valid)
    (hnet : net ⟨"GET".toList, Consumer.messagesURL producerHost, []⟩ =
      .ok ⟨200, ct, encodeBody (marshalSlice L)⟩) :
    Consumer.fetchMessages txt net producerHost =
      (.ok L, [⟨"GET".toList, Consumer.messagesURL producerHost, []⟩]) ∧
    ∃ ms, marshalSlice L = some ms ∧
      (Consumer.handleFetchMessages txt net producerHost hostname now).1 =
        ⟨200, "application/json".toList,
          ['{'] ++ quote "consumer_hostname".toList ++ [':'] ++ quote hostname ++ [','] ++
          quote "messages".toList ++ [':'] ++ ms ++ [','] ++
          quote "timestamp".toList ++ [':'] ++ quote (formatRFC3339 now) ++ ['}'] ++ ['\n']⟩ := by
  have hf : Consumer.fetchMessages txt net producerHost =
      (.ok L, [⟨"GET".toList, Consumer.messagesURL producerHost, []⟩]) := by
    unfold Consumer.fetchMessages
    simp only [hnet, ne_eq, not_true_eq_false, if_false, decodeSlice_encode L hL]
  refine ⟨hf, ?_⟩
  have hms : ∃ ms, marshalSlice L = some ms := by
    cases L with
    | none => exact ⟨_, rfl⟩
    | some l =>
      exact ⟨'[' :: (elemsText l ++ [']']),
        by simp only [marshalSlice, marshalElems_eq l hL, Option.map_some']⟩
  obtain ⟨ms, hms⟩ := hms
  refine ⟨ms, hms, ?_⟩
  unfold Consumer.handleFetchMessages
  rw [hf]
  simp only [Consumer.marshalFetched, hms, encodeBody]

/-- C7 on a sample network: the producer holds one message and answers 200 with its
encoding. -/
theorem C7_fetch_returns_held_messages_witness :
    (∀ m ∈ Slice.toList (some [Sample.stored]), m.Timestamp.Valid) ∧
    Sample.serving ⟨"GET".toList, Consumer.messagesURL "producer:8080".toList, []⟩ =
      .ok ⟨200, "application/json".toList, encodeBody (marshalSlice (some [Sample.stored]))⟩ ∧
    Consumer.fetchMessages Sample.texts Sample.serving "producer:8080".toList =
      (.ok (some [Sample.stored]),
        [⟨"GET".toList, Consumer.messagesURL "producer:8080".toList, []⟩]) :=
  ⟨by decide, rfl,
    (C7_fetch_returns_held_messages Sample.texts (some [Sample.stored]) Sample.serving
      "producer:8080".toList "consumer-1".toList "application/json".toList Sample.clock2
      (by decide) rfl).1⟩

/-- C8 as stated fails: the consumer does not pass the producer's body on, it decodes it and encodes
the result.  A 201 answer with the body `{}` is relayed as a full message object, and a 201
answer whose body is not a message gets 500. -/
theorem C8_relay_not_verbatim :
    (Consumer.handleCreateMessage Sample.texts
        (fun _ => .ok ⟨201, "application/json".toList, "\x7b\x7d".toList⟩)
        "producer:8080".toList ⟨"POST".toList, Sample.body⟩).1 =
      ⟨201, "application/json".toList,
        "\x7b\"id\":\"\",\"content\":\"\",\"timestamp\":\"0001-01-01T00:00:00Z\"\x7d\n".toList⟩ ∧
    (Consumer.handleCreateMessage Sample.texts
        (fun _ => .ok ⟨201, "application/json".toList, "ok".toList⟩)
        "producer:8080".toList ⟨"POST".toList, Sample.body⟩).1.StatusCode = 500 := by
  decide

/-- C8, amended: for a well-formed POST to `/create-message` that the producer answers with 201
and body `B`, the consumer responds 201 with what the encoder writes for the message `B` decodes
to: its JSON text and a newline, or nothing when the zone offset of its timestamp is 24 hours or
more; the body is `B` itself whenever `B` is what the encoder writes for a message (as the
producer's answer is); when `B` does not decode the consumer responds 500. -/
theorem C8_relay_reencodes (txt : ErrorText) (net : Net) (producerHost body jsonData ct B : Str)
    (msg : Message) (hdec : decodeMessage body = some msg)
    (hj : marshalMessage msg = some jsonData)
    (hnet : net ⟨"POST".toList, Consumer.messagesURL producerHost, jsonData⟩ =
      .ok ⟨201, ct, B⟩) :
    (∀ m, decodeMessage B = some m → m.Timestamp.offset.natAbs < 1440 →
      (Consumer.handleCreateMessage txt net producerHost ⟨"POST".toList, body⟩).1 =
        ⟨201, "application/json".toList,
          ['{'] ++ quote "id".toList ++ [':'] ++ quote m.ID ++ [','] ++
            quote "content".toList ++ [':'] ++ quote m.Content ++ [','] ++
            quote "timestamp".toList ++ [':'] ++
            ('"' :: (formatRFC3339Nano m.Timestamp ++ ['"'])) ++ ['}'] ++ ['\n']⟩) ∧
    (∀ m, decodeMessage B = some m → 1440 ≤ m.Timestamp.offset.natAbs →
      (Consumer.handleCreateMessage txt net producerHost ⟨"POST".toList, body⟩).1 =
        ⟨201, "application/json".toList, []⟩) ∧
    (∀ m : Message, m.Timestamp.Valid → B = encodeBody (marshalMessage m) →
      (Consumer.handleCreateMessage txt net producerHost ⟨"POST".toList, body⟩).1 =
        ⟨201, "application/json".toList, B⟩) ∧
    (decodeMessage B = none →
      (Consumer.handleCreateMessage txt net producerHost ⟨"POST".toList, body⟩).1 =
        ⟨500, "text/plain; charset=utf-8".toList,
          "Error creating message: failed to decode response: ".toList ++
            txt.decodeMessage B ++ ['\n']⟩) := by
  have key : ∀ m, decodeMessage B = some m →
      (Consumer.handleCreateMessage txt net producerHost ⟨"POST".toList, body⟩).1 =
        ⟨201, "application/json".toList, encodeBody (marshalMessage m)⟩ := by
    intro m hm
    rw [Consumer.handleCreateMessage_created txt net producerHost body jsonData ct B msg m hdec hj
      hnet hm]
  refine ⟨?_, ?_, ?_, ?_⟩
  · intro m hm hoff
    have hv := valid_of_parsed_offset m.Timestamp (decodeMessage_parsed B m hm) hoff
    rw [key m hm, marshalMessage_eq m hv]
    rfl
  · intro m hm hoff
    rw [key m hm, marshalMessage_none_of_offset m hoff]
    rfl
  · intro m hv hB
    have hm : decodeMessage B = some m := by rw [hB]; exact decodeMessage_encode m hv
    rw [key m hm, hB]
  · intro hB
    rw [Consumer.handleCreateMessage_undecodable txt net producerHost body jsonData ct B msg hdec
      hj hnet hB]
    simp [httpError]

/-- C8, amended, on a sample network: the producer answers 201 with the encoding of a message,
which the consumer hands on. -/
theorem C8_relay_reencodes_witness :
    decodeMessage Sample.body = some Sample.decoded ∧
    marshalMessage Sample.decoded = some Sample.body ∧
    Sample.created ⟨"POST".toList, Consumer.messagesURL "producer:8080".toList, Sample.body⟩ =
      .ok ⟨201, "application/json".toList, encodeBody (marshalMessage Sample.stored)⟩ ∧
    Sample.stored.Timestamp.Valid ∧
    (Consumer.handleCreateMessage Sample.texts Sample.created "producer:8080".toList
      ⟨"POST".toList, Sample.body⟩).1 =
        ⟨201, "application/json".toList,
          ("\x7b\"id\":\"1709251200000005000\",\"content\":\"first \\u003c1\\u003e\"," ++
            "\"timestamp\":\"2024-03-01T05:30:00.000005+05:30\"\x7d\n").toList⟩ :=
  ⟨by decide, by decide, rfl, by decide,
    ((C8_relay_reencodes Sample.texts Sample.created "producer:8080".toList Sample.body
      Sample.body "application/json".toList (encodeBody (marshalMessage Sample.stored))
      Sample.decoded (by decide) (by decide) rfl).2.2.1 Sample.stored (by decide) rfl).trans
      (by decide)⟩

namespace ConsumerV2

theorem checkInterval_default (s : Str)
    (h : s = [] ∨ Atoi s = none ∨ ∃ v, Atoi s = some v ∧ v ≤ 0) : checkInterval s = 30 := by
  unfold checkInterval
  rcases h with h | h | ⟨v, h, hv⟩
  · simp [h]
  · simp [h]
  · have : ¬ v > 0 := by omega
    simp [h, this]

theorem checkInterval_parsed (s : Str) (v : Int) (h : Atoi s = some v) (hv : 0 < v) :
    checkInterval s = v := by
  unfold checkInterval
  have hs : s ≠ [] := by
    intro hs
    have hnil : Atoi [] = none := by decide
    rw [hs, hnil] at h
    cases h
  simp [hs, h, hv]

/-- Up to 9223372036 seconds the duration is the parsed number of seconds and positive. -/
theorem tickerInterval_in_range (s : Str) (v : Int) (h : Atoi s = some v) (hv : 0 < v)
    (hb : v ≤ 9223372036) :
    tickerInterval s = v * 1000000000 ∧ 0 < tickerInterval s := by
  unfold tickerInterval
  rw [checkInterval_parsed s v h hv]
  unfold wrapInt64 Second
  have hmod : (v * 1000000000 + 2 ^ 63) % 2 ^ 64 = v * 1000000000 + 2 ^ 63 :=
    Int.emod_eq_of_lt (by omega) (by omega)
  rw [hmod]
  constructor <;> omega

end ConsumerV2
